import Mathlib

/-!
Verification of the AL HiLo translation core (XLIFF candidate matcher,
document mutator, translation confidence engine) against its specification.

The development is a shallow embedding of the TypeScript sources:

* `src/xliff/xliffMatcher.ts` and its extended revision (candidate matcher,
  trans-unit id parser, text normalizer),
* `src/models/translation.ts` (translation flow, confidence scoring,
  backend retry),
* `src/utils/stringUtils.ts` (xmlEscape / xmlUnescape / calculateConfidence),
* the Cosmos correction-apply module (`applyUpdatesToXliff`,
  `updateUnitTarget`, `normalizeForCompare`).

JavaScript strings are modelled as `List Char`; the concrete regular
expressions of the source are modelled by hand-rolled scanners that mirror
the regex semantics (leftmost match, greedy character classes, lazy bodies).
Numeric confidence arithmetic is modelled over `ℚ` (and over `ℝ` where the
source exponentiates log-probabilities).
-/

namespace ALHiLo

set_option maxRecDepth 100000

/-- JavaScript strings, modelled as lists of characters. -/
abbrev Str := List Char

/-- Coerce a Lean string literal to the model's string type. -/
def str (s : String) : Str := s.toList

/-! ### Character classes used by the source regexes -/

/-- JavaScript regex `\w`: ASCII letters, digits and underscore. -/
def isWordChar (c : Char) : Bool :=
  (('a' ≤ c && c ≤ 'z') || ('A' ≤ c && c ≤ 'Z') || ('0' ≤ c && c ≤ '9') || c = '_')

/-- JavaScript regex `\d`: ASCII digits. -/
def isDigitChar (c : Char) : Bool := ('0' ≤ c && c ≤ '9')

/-- JavaScript whitespace (`\s`, and the set removed by `String.trim`):
ASCII whitespace plus the Unicode space characters named by the regex
specification. -/
def isJsWs (c : Char) : Bool :=
  c = ' ' || c = '\t' || c = '\n' || c = '\r' ||
  c = Char.ofNat 11 || c = Char.ofNat 12 ||
  c = Char.ofNat 0xa0 || c = Char.ofNat 0x1680 ||
  (Char.ofNat 0x2000 ≤ c && c ≤ Char.ofNat 0x200a) ||
  c = Char.ofNat 0x2028 || c = Char.ofNat 0x2029 ||
  c = Char.ofNat 0x202f || c = Char.ofNat 0x205f ||
  c = Char.ofNat 0x3000 || c = Char.ofNat 0xfeff

/-- ASCII lower-casing of one character (`String.prototype.toLowerCase`
restricted to the ASCII range, which is the only range exercised by the
XLIFF tag vocabulary and the Business Central object names). -/
def lowerChar (c : Char) : Char :=
  if 'A' ≤ c && c ≤ 'Z' then Char.ofNat (c.toNat + 32) else c

/-- Lower-case a whole string (`toLowerCase`). -/
def lowerStr (s : Str) : Str := s.map lowerChar

/-! ### Generic literal replacement (`String.prototype.replace` with a
literal global pattern) -/

/-- Fuelled worker for global literal replacement: scan left to right; at a
position where the pattern is a prefix, emit the replacement and continue
after the matched occurrence, otherwise emit one character. -/
def replaceAllGo (p r : Str) : Nat → Str → Str
  | _, [] => []
  | 0, s => s
  | n + 1, c :: rest =>
    if p.isPrefixOf (c :: rest) ∧ p ≠ [] then
      r ++ replaceAllGo p r n (List.drop (p.length - 1) rest)
    else
      c :: replaceAllGo p r n rest

/-- Global replacement of every (non-overlapping, leftmost) occurrence of
the literal pattern `p` by `r`, as in `s.replace(/p/g, r)`. -/
def replaceAll (p r s : Str) : Str := replaceAllGo p r s.length s

/-- Substring test, `s.includes(p)`. -/
def containsSub (p : Str) : Str → Bool
  | [] => decide (p = [])
  | c :: rest => p.isPrefixOf (c :: rest) || containsSub p rest

/-! ### Translation flow (`src/models/translation.ts`) -/

/-- One translation option returned by the flow
(`{ translated, confidence, source }`). -/
structure TransResult where
  translated : Str
  confidence : ℚ
  source : Str
deriving DecidableEq, Repr

/-- The typed failures surfaced by `translateText` / `callAITranslation`
(`throw new Error(...)` in the source). -/
inductive TranslationError where
  | invalidInput : TranslationError
  | translationFailed (message : Str) : TranslationError
deriving DecidableEq, Repr

/-- Collaborator responses for one `translateText` request.  The exact-match
store and the generative backend are external collaborators (spec §1); their
responses for the request at hand are supplied as plain data: `exact` is the
`lookupExactTranslation` result, `initialResult` the outcome of the first
`callAITranslation`, `enrichedResult` the outcome of the enrichment call. -/
structure TranslateEnv where
  exact : Option (Str × ℚ)
  initialResult : List TransResult
  enrichedResult : List TransResult

/-- Threshold constant `LOW_CONFIDENCE_THRESHOLD = 0.70`. -/
def LOW_CONFIDENCE_THRESHOLD : ℚ := 70 / 100

/-- Retry constant `NUMBER_OF_RETRIES = 3` (the default of the `retries`
parameter of `translateText`). -/
def NUMBER_OF_RETRIES : Int := 3

/-- The decision core of `translateText` (translation.ts, lines 18–77).
Configuration lookup and editor prompts are I/O collaborators and are
omitted; a request that reaches this logic is a configured request.  The
result is the returned option list paired with the number of backend calls
the flow performed (0 for a cache hit, 1 for the initial call only, 2 when
the low-confidence enrichment round ran). -/
def translateText (env : TranslateEnv) (text : Str) (retries : Int) :
    Except TranslationError (List TransResult × Nat) :=
  if text = [] then
    .error .invalidInput
  else
    match env.exact with
    | some (translated, confidence) =>
      .ok ([⟨translated, confidence, str "cosmos"⟩], 0)
    | none =>
      let initialResult := env.initialResult
      let lowConfidence :=
        initialResult.any fun r => r.confidence < LOW_CONFIDENCE_THRESHOLD
      if ¬lowConfidence ∨ retries ≤ 0 ∨ 80 < text.length then
        .ok (initialResult, 1)
      else
        .ok (env.enrichedResult, 2)

/-- Maximum confidence of a result list (0 for the empty list).  This is the
quantity the specification's enrichment condition speaks about; the code
itself computes `initialResult.some(r => r.confidence < threshold)`. -/
def maxConfidence (results : List TransResult) : ℚ :=
  (results.map TransResult.confidence).foldr max 0

/-- One backend attempt, as seen by `callAITranslation`'s catch clause:
either a successful option list or an error message string. -/
abbrev Backend := Nat → Except Str (List TransResult)

/-- The retry loop of `callAITranslation` (translation.ts, lines 143–152),
with an explicit fuel bound on the number of backend attempts observed.  On
an error whose message contains `"model loading"` the source waits a fixed
delay and calls itself again with unchanged arguments; any other error is
rethrown as `Translation failed: <message>`.  `none` means the loop was
still retrying after `fuel` backend attempts. -/
def callAITranslationFuel (backend : Backend) :
    Nat → Nat → Option (Except TranslationError (List TransResult))
  | _, 0 => none
  | attempt, fuel + 1 =>
    match backend attempt with
    | .ok results => some (.ok results)
    | .error msg =>
      if containsSub (str "model loading") msg then
        callAITranslationFuel backend (attempt + 1) fuel
      else
        some (.error (.translationFailed (str "Translation failed: " ++ msg)))

/-- A backend that reports the transient model-loading condition on every
attempt. -/
def alwaysLoadingBackend : Backend := fun _ => .error (str "model loading")

/-! ### Confidence scoring (`calculateLogprobConfidence`, translation.ts
lines 182–192, and `clampConfidence`, lines 257–260) -/

/-- `Math.min(...xs)` for a non-empty list (the empty case is never reached
by the source; it is given a dummy value here). -/
noncomputable def mathMin : List ℝ → ℝ
  | [] => 0
  | x :: xs => xs.foldl min x

/-- `parseFloat(value.toFixed(2))`: round to the nearest multiple of 1/100,
ties rounded up (ECMAScript `toFixed` picks the larger candidate). -/
noncomputable def round2R (x : ℝ) : ℝ := (round (x * 100) : ℤ) / 100

/-- `clampConfidence`: round to 2 decimals, clamp into `[0, 0.99]`.  The
`isFinite` guard of the source cannot fire over `ℝ`. -/
noncomputable def clampConfidence (x : ℝ) : ℝ :=
  min 0.99 (max 0 (round2R x))

/-- `calculateLogprobConfidence(logprobs)` with the default prior 0.7:
exponentiate each log-probability, blend mean and minimum 70/30, then
clamp. -/
noncomputable def calculateLogprobConfidence (logprobs : List ℝ) : ℝ :=
  match logprobs with
  | [] => 0.7
  | lp :: lps =>
    let probabilities := (lp :: lps).map Real.exp
    let avgProb := probabilities.sum / probabilities.length
    let minProb := mathMin probabilities
    clampConfidence (avgProb * 0.7 + minProb * 0.3)

/-- Modelled from the spec: the score formula exactly as claim C7 states it
for a non-empty list — `0.7 × mean + 0.3 × min` of the exponentiated
log-probabilities, rounded to 2 decimals, with no clamping. -/
noncomputable def logprobScoreSpec (logprobs : List ℝ) : ℝ :=
  round2R (0.7 * ((logprobs.map Real.exp).sum / (logprobs.map Real.exp).length)
    + 0.3 * mathMin (logprobs.map Real.exp))

/-- A concrete environment refuting the "maximum confidence" reading of the
enrichment trigger: the initial backend call yields two options with
confidences 0.9 and 0.5. -/
def c2Env : TranslateEnv :=
  { exact := none
  , initialResult := [⟨str "aaa", 9/10, str "aiTranslator"⟩, ⟨str "bbb", 1/2, str "aiTranslator"⟩]
  , enrichedResult := [⟨str "ccc", 8/10, str "aiTranslator"⟩] }

/-- An environment whose single initial option has confidence 0.5 (below
the threshold). -/
def c2LowEnv : TranslateEnv :=
  { exact := none
  , initialResult := [⟨str "aaa", 1/2, str "aiTranslator"⟩]
  , enrichedResult := [⟨str "ccc", 8/10, str "aiTranslator"⟩] }

/-! ### XML escaping (`src/utils/stringUtils.ts`, lines 11–32) -/

/-- `xmlEscape`: sequentially replace `&`, `<`, `>`, `"`, `'` by the five
XML entities (ampersand first). -/
def xmlEscape (s : Str) : Str :=
  replaceAll (str "'") (str "&apos;")
    (replaceAll (str "\"") (str "&quot;")
      (replaceAll (str ">") (str "&gt;")
        (replaceAll (str "<") (str "&lt;")
          (replaceAll (str "&") (str "&amp;") s))))

/-- `xmlUnescape`: sequentially restore the five entities, `&amp;` last. -/
def xmlUnescape (s : Str) : Str :=
  replaceAll (str "&amp;") (str "&")
    (replaceAll (str "&lt;") (str "<")
      (replaceAll (str "&gt;") (str ">")
        (replaceAll (str "&quot;") (str "\"")
          (replaceAll (str "&apos;") (str "'") s))))

/-- Helper for the round-trip proof: map a per-character token function over
a string and concatenate. -/
def tokMap (tok : Char → Str) : Str → Str
  | [] => []
  | c :: s => tok c ++ tokMap tok s

/-- Token alphabet after the ampersand escaping pass. -/
def esc1 (c : Char) : Str := if c = '&' then str "&amp;" else [c]

/-- Token alphabet after the ampersand and less-than passes. -/
def esc2 (c : Char) : Str :=
  if c = '&' then str "&amp;" else if c = '<' then str "&lt;" else [c]

/-- Token alphabet after the ampersand, less-than and greater-than passes. -/
def esc3 (c : Char) : Str :=
  if c = '&' then str "&amp;" else if c = '<' then str "&lt;" else
  if c = '>' then str "&gt;" else [c]

/-- Token alphabet after all escaping passes but the apostrophe pass. -/
def esc4 (c : Char) : Str :=
  if c = '&' then str "&amp;" else if c = '<' then str "&lt;" else
  if c = '>' then str "&gt;" else if c = '"' then str "&quot;" else [c]

/-- The full per-character escaping table realised by `xmlEscape`. -/
def escTok (c : Char) : Str :=
  if c = '&' then str "&amp;" else if c = '<' then str "&lt;" else
  if c = '>' then str "&gt;" else if c = '"' then str "&quot;" else
  if c = '\'' then str "&apos;" else [c]

/-! ### Scanning primitives shared by the regex models -/

/-- Prefix test parameterised by a character comparison. -/
def prefixBy (eqf : Char → Char → Bool) : Str → Str → Bool
  | [], _ => true
  | _ :: _, [] => false
  | a :: as, b :: bs => eqf a b && prefixBy eqf as bs

/-- ASCII case-insensitive character equality (the `i` regex flag). -/
def ciEq (a b : Char) : Bool := lowerChar a == lowerChar b

/-- Case-insensitive prefix test against a lowercase literal. -/
def ciPrefix (p s : Str) : Bool := prefixBy ciEq p s

/-- Index of the first occurrence of `p` in `s` under the character
comparison `eqf`. -/
def findSubIdx (eqf : Char → Char → Bool) (p : Str) : Str → Option Nat
  | [] => if prefixBy eqf p [] then some 0 else none
  | c :: rest =>
    if prefixBy eqf p (c :: rest) then some 0
    else (findSubIdx eqf p rest).map (· + 1)

/-- First occurrence of `p` in `s`, exact comparison. -/
def findSubIdxEx (p s : Str) : Option Nat := findSubIdx (fun a b => a == b) p s

/-- First occurrence of a lowercase literal in `s`, case-insensitively. -/
def findSubIdxCi (p s : Str) : Option Nat := findSubIdx ciEq p s

/-- Word-boundary test used after a tag-name literal (`\b`): the next
character is absent or a non-word character. -/
def wordBoundaryAfter (s : Str) : Bool :=
  match s with
  | [] => true
  | c :: _ => !isWordChar c

/-! ### Text normalizer (`normalizeText` / `decodeXmlEntities`,
`src/unnamed/part_002` lines 225–244) -/

/-- Value of an ASCII hex digit. -/
def hexDigitVal (c : Char) : Nat :=
  if '0' ≤ c && c ≤ '9' then c.toNat - 48
  else if 'a' ≤ c && c ≤ 'f' then c.toNat - 87
  else if 'A' ≤ c && c ≤ 'F' then c.toNat - 55
  else 0

/-- ASCII hex digit test (`[0-9a-fA-F]`). -/
def isHexDigit (c : Char) : Bool :=
  ('0' ≤ c && c ≤ '9') || ('a' ≤ c && c ≤ 'f') || ('A' ≤ c && c ≤ 'F')

/-- Numeric value of a hex digit string. -/
def parseHex (ds : Str) : Nat := ds.foldl (fun a c => a * 16 + hexDigitVal c) 0

/-- Numeric value of a decimal digit string. -/
def parseDec (ds : Str) : Nat := ds.foldl (fun a c => a * 10 + (c.toNat - 48)) 0

/-- `String.fromCharCode`: reduce modulo 2^16 to a UTF-16 code unit
(surrogate values are mapped to the null character by `Char.ofNat`, the
only divergence of the `Char` model from raw UTF-16 units). -/
def fromCharCode (n : Nat) : Char := Char.ofNat (n % 65536)

/-- Fuelled worker for the CDATA unwrapping pass
(`/<!\[CDATA\[([\s\S]*?)\]\]>/g` replaced by the capture). -/
def cdataGo : Nat → Str → Str
  | 0, s => s
  | _ + 1, [] => []
  | fuel + 1, c :: rest =>
    if (str "<![CDATA[").isPrefixOf (c :: rest) then
      match findSubIdxEx (str "]]>") ((c :: rest).drop 9) with
      | some j =>
        ((c :: rest).drop 9).take j ++ cdataGo fuel ((c :: rest).drop (9 + j + 3))
      | none => c :: cdataGo fuel rest
    else c :: cdataGo fuel rest

/-- CDATA unwrapping pass. -/
def cdataUnwrap (s : Str) : Str := cdataGo s.length s

/-- Fuelled worker for the hex character-reference pass
(`/&#x([0-9a-fA-F]+);/g` replaced by `String.fromCharCode(parseInt(hex, 16))`). -/
def hexRefsGo : Nat → Str → Str
  | 0, s => s
  | _ + 1, [] => []
  | fuel + 1, c :: rest =>
    if (str "&#x").isPrefixOf (c :: rest) then
      let ds := (rest.drop 2).takeWhile isHexDigit
      if ds ≠ [] ∧ (rest.drop (2 + ds.length)).head? = some ';' then
        fromCharCode (parseHex ds) :: hexRefsGo fuel (rest.drop (2 + ds.length + 1))
      else c :: hexRefsGo fuel rest
    else c :: hexRefsGo fuel rest

/-- Hex character-reference decoding pass. -/
def hexRefs (s : Str) : Str := hexRefsGo s.length s

/-- Fuelled worker for the decimal character-reference pass
(`/&#(\d+);/g` replaced by `String.fromCharCode(parseInt(num, 10))`). -/
def decRefsGo : Nat → Str → Str
  | 0, s => s
  | _ + 1, [] => []
  | fuel + 1, c :: rest =>
    if (str "&#").isPrefixOf (c :: rest) then
      let ds := (rest.drop 1).takeWhile isDigitChar
      if ds ≠ [] ∧ (rest.drop (1 + ds.length)).head? = some ';' then
        fromCharCode (parseDec ds) :: decRefsGo fuel (rest.drop (1 + ds.length + 1))
      else c :: decRefsGo fuel rest
    else c :: decRefsGo fuel rest

/-- Decimal character-reference decoding pass. -/
def decRefs (s : Str) : Str := decRefsGo s.length s

/-- `decodeXmlEntities`: CDATA, hex and decimal references, `&nbsp;`, then
the five standard entities with `&amp;` last. -/
def decodeXmlEntities (s : Str) : Str :=
  replaceAll (str "&amp;") (str "&")
  (replaceAll (str "&apos;") (str "'")
  (replaceAll (str "&quot;") (str "\"")
  (replaceAll (str "&gt;") (str ">")
  (replaceAll (str "&lt;") (str "<")
  (replaceAll (str "&nbsp;") (str " ")
  (decRefs (hexRefs (cdataUnwrap s))))))))

/-- Fuelled worker for tag stripping (`/<[^>]+>/g` replaced by a space). -/
def tagStripGo : Nat → Str → Str
  | 0, s => s
  | _ + 1, [] => []
  | fuel + 1, c :: rest =>
    if c = '<' then
      match rest.findIdx? (fun d => d == '>') with
      | some 0 => c :: tagStripGo fuel rest
      | some (j + 1) => ' ' :: tagStripGo fuel (rest.drop (j + 2))
      | none => c :: tagStripGo fuel rest
    else c :: tagStripGo fuel rest

/-- Tag stripping pass. -/
def tagStrip (s : Str) : Str := tagStripGo s.length s

/-- Hotkey-ampersand stripping (`/&(?=\w)/g` removed): an `&` directly
followed by a word character is dropped. -/
def stripHotkeys : Str → Str
  | [] => []
  | c :: rest =>
    if c = '&' then
      match rest with
      | d :: _ => if isWordChar d then stripHotkeys rest else c :: stripHotkeys rest
      | [] => [c]
    else c :: stripHotkeys rest

/-- Whitespace collapsing (`/\s+/g` replaced by one space). -/
def collapseWs : Str → Str
  | [] => []
  | c :: rest =>
    if isJsWs c then
      match rest with
      | d :: _ => if isJsWs d then collapseWs rest else ' ' :: collapseWs rest
      | [] => [' ']
    else c :: collapseWs rest

/-- `String.prototype.trim`. -/
def trimWs (s : Str) : Str := ((s.dropWhile isJsWs).reverse.dropWhile isJsWs).reverse

/-- `normalizeText` (the matcher's comparison key): decode, strip tags,
strip hotkey ampersands, collapse whitespace, trim, lower-case. -/
def normalizeText (s : Str) : Str :=
  lowerStr (trimWs (collapseWs (stripHotkeys (tagStrip (decodeXmlEntities s)))))

/-- `normalizeForCompare` (the mutator's comparison key, part_007 lines
517–519): collapse whitespace, trim, lower-case. -/
def normalizeForCompare (s : Str) : Str := lowerStr (trimWs (collapseWs s))

/-! ### Tag and trans-unit scanners (models of the concrete regexes) -/

/-- A match of `<tag\b[^>]*>([\s\S]*?)</tag>` (flag `i`): the text before
the match, the opening tag through its `>`, the lazy content, the actual
closing-tag text, and the text after. -/
structure TagMatch where
  pre : Str
  openTag : Str
  content : Str
  closeTag : Str
  post : Str
deriving DecidableEq, Repr

/-- Whole matched region of a `TagMatch`. -/
def TagMatch.whole (m : TagMatch) : Str := m.openTag ++ m.content ++ m.closeTag

/-- Try to match `<tag\b[^>]*>([\s\S]*?)</tag>` at the current position:
the opening literal (case-insensitively), a word boundary, greedy `[^>]*`
up to the first `>`, then lazily up to the first `</tag>`. -/
def tryTagAt (tag : Str) (s : Str) : Option (Str × Str × Str × Str) :=
  let openLit := '<' :: tag
  if ciPrefix openLit s && wordBoundaryAfter (s.drop openLit.length) then
    let t := s.drop openLit.length
    match t.findIdx? (fun d => d == '>') with
    | none => none
    | some g =>
      let afterOpen := t.drop (g + 1)
      let closeLit := str "</" ++ tag ++ str ">"
      match findSubIdxCi closeLit afterOpen with
      | none => none
      | some j =>
        some (s.take (openLit.length + g + 1), afterOpen.take j,
          (afterOpen.drop j).take closeLit.length, afterOpen.drop (j + closeLit.length))
  else none

/-- First match of `<tag\b[^>]*>([\s\S]*?)</tag>` in `s` (the regex engine
advances one character at a time on failure). -/
def findTagMatch (tag : Str) : Str → Option TagMatch
  | [] => none
  | c :: rest =>
    match tryTagAt tag (c :: rest) with
    | some (o, cont, cl, post) => some ⟨[], o, cont, cl, post⟩
    | none => (findTagMatch tag rest).map fun m => { m with pre := c :: m.pre }

/-- Try to match the self-closing form `<tag\b[^>]*\/>` at the current
position: the first `>` of the region must be directly preceded by `/`.
Returns (whole match, text after). -/
def trySelfCloseAt (tag : Str) (s : Str) : Option (Str × Str) :=
  let openLit := '<' :: tag
  if ciPrefix openLit s && wordBoundaryAfter (s.drop openLit.length) then
    let t := s.drop openLit.length
    match t.findIdx? (fun d => d == '>') with
    | none => none
    | some g =>
      if 1 ≤ g ∧ t.get? (g - 1) = some '/' then
        some (s.take (openLit.length + g + 1), t.drop (g + 1))
      else none
  else none

/-- First match of `<tag\b[^>]*\/>` in `s`, as (pre, whole, post). -/
def findSelfClosing (tag : Str) : Str → Option (Str × Str × Str)
  | [] => none
  | c :: rest =>
    match trySelfCloseAt tag (c :: rest) with
    | some (whole, post) => some ([], whole, post)
    | none => (findSelfClosing tag rest).map fun m => (c :: m.1, m.2.1, m.2.2)

/-- Try to match the developer-note element
`<note\b[^>]*from="Xliff Generator"[^>]*>([\s\S]*?)</note>` at the current
position; returns the lazy content. -/
def tryNoteAt (s : Str) : Option Str :=
  let openLit := str "<note"
  if ciPrefix openLit s && wordBoundaryAfter (s.drop openLit.length) then
    let t := s.drop openLit.length
    match t.findIdx? (fun d => d == '>') with
    | none => none
    | some g =>
      if (findSubIdxCi (str "from=\"xliff generator\"") (t.take g)).isSome then
        let afterOpen := t.drop (g + 1)
        match findSubIdxCi (str "</note>") afterOpen with
        | none => none
        | some j => some (afterOpen.take j)
      else none
  else none

/-- Content of the first Xliff-Generator note element in `s`. -/
def findNoteContent : Str → Option Str
  | [] => none
  | c :: rest =>
    match tryNoteAt (c :: rest) with
    | some content => some content
    | none => findNoteContent rest

/-- Capture of `/\n(\s*)<tag\b/i` starting at the current position list:
the first newline whose following maximal whitespace run is directly
followed by `<tag` with a word boundary. -/
def indentAt (tag : Str) : Str → Option Str
  | [] => none
  | c :: rest =>
    if c = '\n' then
      let w := rest.takeWhile isJsWs
      let after := rest.drop w.length
      if ciPrefix ('<' :: tag) after && wordBoundaryAfter (after.drop (tag.length + 1)) then
        some w
      else indentAt tag rest
    else indentAt tag rest

/-- `detectIndent` (part_007 lines 512–515): whitespace before `<source`,
else before `<target`, else four spaces. -/
def detectIndent (unit : Str) : Str :=
  match indentAt (str "source") unit with
  | some w => w
  | none =>
    match indentAt (str "target") unit with
    | some w => w
    | none => str "    "

/-- One match of the trans-unit regex
`<trans-unit\b[^>]*\bid="([^"]+)"[^>]*>[\s\S]*?<\/trans-unit>` (flags `gi`). -/
structure UnitMatch where
  pre : Str
  whole : Str
  unitId : Str
  rest : Str
deriving DecidableEq, Repr

/-- Try the trans-unit regex at the current position.  Greedy `[^>]*`
prefers the last `\bid="` occurrence inside the `>`-free attribute region;
the id value `[^"]+` runs to the next quote and must be non-empty; the
opening tag ends at the first `>` after that quote; the body is lazy up to
the first `</trans-unit>`.  Returns (whole, id value, rest). -/
def tryUnitAt (s : Str) : Option (Str × Str × Str) :=
  if ciPrefix (str "<trans-unit") s && wordBoundaryAfter (s.drop 11) then
    let t := s.drop 11
    match t.findIdx? (fun d => d == '>') with
    | none => none
    | some F =>
      let cands := (List.range F).filter fun i =>
        decide (i + 3 < F) && ciPrefix (str "id=\"") (t.drop i) &&
        (match i with
         | 0 => false
         | i' + 1 =>
           match t.get? i' with
           | some pc => !isWordChar pc
           | none => false)
      match cands.reverse.findSome? (fun i =>
        let afterId := t.drop (i + 4)
        match afterId.findIdx? (fun d => d == '"') with
        | none => none
        | some q =>
          if q = 0 then none
          else
            match (afterId.drop (q + 1)).findIdx? (fun d => d == '>') with
            | none => none
            | some e => some (afterId.take q, i + 4 + q + 1 + e + 1)) with
      | none => none
      | some (idv, consumed) =>
        match findSubIdxCi (str "</trans-unit>") (t.drop consumed) with
        | none => none
        | some j =>
          some (s.take (11 + consumed + j + 13), idv, s.drop (11 + consumed + j + 13))
  else none

/-- First trans-unit match in `s`. -/
def findUnitMatch : Str → Option UnitMatch
  | [] => none
  | c :: rest =>
    match tryUnitAt (c :: rest) with
    | some (whole, idv, post) => some ⟨[], whole, idv, post⟩
    | none => (findUnitMatch rest).map fun m => { m with pre := c :: m.pre }

/-- Fuelled iteration of the global trans-unit scan, collecting
(id, whole block) pairs in document order. -/
def scanUnitsGo : Nat → Str → List (Str × Str)
  | 0, _ => []
  | fuel + 1, s =>
    match findUnitMatch s with
    | none => []
    | some m => (m.unitId, m.whole) :: scanUnitsGo fuel m.rest

/-- All trans-unit matches of a document, in document order. -/
def scanUnits (s : Str) : List (Str × Str) := scanUnitsGo s.length s

/-! ### Document mutator (part_007: `applyUpdatesToXliff`,
`updateUnitTarget`) -/

/-- The fixed opening tag written by the mutator. -/
def targetOpenLit : Str :=
  str "<target state=\"translated\" confidence=\"1.00\" translationSource=\"userCorrection\">"

/-- The replacement target element
`<target state="translated" confidence="1.00"
translationSource="userCorrection">…</target>` built around the XML-escaped
translation (the `targetTag` local of `updateUnitTarget`). -/
def targetTag (translated : Str) : Str :=
  targetOpenLit ++ xmlEscape translated ++ str "</target>"

/-- ECMAScript `GetSubstitution` for a string replacement argument
(`String.prototype.replace(regex, string)`): scan the replacement template
and expand `$$`, `` $` ``, `$&`, `$'`, one/two-digit `$n` capture
references (two digits preferred, falling back to one digit, left literal
when out of range) and the `$<` form (literal here, as neither regex of
`updateUnitTarget` has named groups); an unrecognised `$` passes through.
`matched`/`before`/`after` are the matched substring and the text around
it; `caps` lists the capture-group values. -/
def getSubstGo (matched before after : Str) (caps : List Str) : Nat → Str → Str
  | _, [] => []
  | 0, s => s
  | fuel + 1, c :: rest =>
    if c = '$' then
      match rest with
      | [] => ['$']
      | d :: r2 =>
        if d = '$' then '$' :: getSubstGo matched before after caps fuel r2
        else if d = '&' then
          matched ++ getSubstGo matched before after caps fuel r2
        else if d = '`' then
          before ++ getSubstGo matched before after caps fuel r2
        else if d = '\'' then
          after ++ getSubstGo matched before after caps fuel r2
        else if d = '<' then
          '$' :: '<' :: getSubstGo matched before after caps fuel r2
        else if isDigitChar d then
          match r2 with
          | e :: r3 =>
            if isDigitChar e then
              let n2 := (d.toNat - 48) * 10 + (e.toNat - 48)
              if 1 ≤ n2 ∧ n2 ≤ caps.length then
                caps.getD (n2 - 1) [] ++
                  getSubstGo matched before after caps fuel r3
              else if 1 ≤ d.toNat - 48 ∧ d.toNat - 48 ≤ caps.length then
                caps.getD (d.toNat - 48 - 1) [] ++
                  getSubstGo matched before after caps fuel (e :: r3)
              else '$' :: d :: getSubstGo matched before after caps fuel (e :: r3)
            else if 1 ≤ d.toNat - 48 ∧ d.toNat - 48 ≤ caps.length then
              caps.getD (d.toNat - 48 - 1) [] ++
                getSubstGo matched before after caps fuel (e :: r3)
            else '$' :: d :: getSubstGo matched before after caps fuel (e :: r3)
          | [] =>
            if 1 ≤ d.toNat - 48 ∧ d.toNat - 48 ≤ caps.length then
              caps.getD (d.toNat - 48 - 1) []
            else ['$', d]
        else '$' :: getSubstGo matched before after caps fuel rest
    else c :: getSubstGo matched before after caps fuel rest

/-- `GetSubstitution` on a whole replacement template (the template length
bounds the number of scanning steps). -/
def getSubst (matched before after : Str) (caps : List Str) (templ : Str) : Str :=
  getSubstGo matched before after caps templ.length templ

/-- `updateUnitTarget(unit, translated)` (part_007 lines 483–510): build the
replacement target tag; if a closed target element exists, compare its
unescaped, normalized content with the normalized new text and return the
unit unchanged on equality, otherwise replace the element
(`unit.replace(targetRe, targetTag)` — a string replacement, so the tag
goes through `GetSubstitution` against the match, whose one capture group
is the old content); else replace a self-closing target (string
replacement again, zero capture groups); else insert a new target after
the source element with the detected indentation (a function replacement
in the source — `(match) => ...` — so no substitution there); else return
the unit unchanged. -/
def updateUnitTarget (unit : Str) (translated : Str) : Str :=
  let targetTag := targetTag translated
  match findTagMatch (str "target") unit with
  | some m =>
    if normalizeForCompare (xmlUnescape m.content) = normalizeForCompare translated then
      unit
    else
      m.pre ++ getSubst m.whole m.pre m.post [m.content] targetTag ++ m.post
  | none =>
    match findSelfClosing (str "target") unit with
    | some m => m.1 ++ getSubst m.2.1 m.1 m.2.2 [] targetTag ++ m.2.2
    | none =>
      let indent := detectIndent unit
      match findTagMatch (str "source") unit with
      | some m =>
        m.pre ++ m.whole ++ str "\n" ++ indent ++ targetTag ++ m.post
      | none => unit

/-- Fuelled worker of `applyUpdatesToXliff`: rewrite every matched
trans-unit block whose id is in the update map through `updateUnitTarget`,
leaving every other block and all text between blocks unchanged; collect
the ids of updated and unchanged units (in match order). -/
def applyUpdatesGo (updates : List (Str × Str)) : Nat → Str → Str × List Str × List Str
  | 0, s => (s, [], [])
  | fuel + 1, s =>
    match findUnitMatch s with
    | none => (s, [], [])
    | some m =>
      match updates.lookup m.unitId with
      | none =>
        let r := applyUpdatesGo updates fuel m.rest
        (m.pre ++ m.whole ++ r.1, r.2.1, r.2.2)
      | some translated =>
        let replaced := updateUnitTarget m.whole translated
        let r := applyUpdatesGo updates fuel m.rest
        if replaced = m.whole then
          (m.pre ++ m.whole ++ r.1, r.2.1, m.unitId :: r.2.2)
        else
          (m.pre ++ replaced ++ r.1, m.unitId :: r.2.1, r.2.2)

/-- `applyUpdatesToXliff(content, updates)` (part_007 lines 455–481): the
rewritten document, the ids of units actually rewritten, and the ids of
units addressed but left unchanged (the source's `updated`/`unchanged`
counters are the lengths of these lists). -/
def applyUpdatesToXliff (content : Str) (updates : List (Str × Str)) :
    Str × List Str × List Str :=
  applyUpdatesGo updates content.length content

/-! ### Trans-unit id parser (`parseTransUnitId`, part_002 lines 73–105) -/

/-- Parsed trans-unit identity. `elementType`/`elementId` are both present
(full grammar) or both absent (simple grammar). -/
structure TransUnitIdentity where
  objectType : Str
  objectId : Str
  elementType : Option Str
  elementId : Option Str
  propertyId : Str
deriving DecidableEq, Repr

/-- Split a string into its maximal non-whitespace runs. -/
def splitWsTokens : Str → List Str
  | [] => []
  | [c] => if isJsWs c then [] else [[c]]
  | c :: d :: rest =>
    if isJsWs c then splitWsTokens (d :: rest)
    else if isJsWs d then [c] :: splitWsTokens (d :: rest)
    else
      match splitWsTokens (d :: rest) with
      | [] => [[c]]
      | t :: ts => (c :: t) :: ts

/-- Non-empty all-word-character token (`\w+`). -/
def allWord (t : Str) : Bool := !t.isEmpty && t.all isWordChar

/-- Non-empty all-digit token (`\d+`). -/
def allDigit (t : Str) : Bool := !t.isEmpty && t.all isDigitChar

/-- `parseTransUnitId`: the anchored full grammar
`^(\w+)\s+(\d+)\s+-\s+(\w+)\s+(\d+)\s+-\s+Property\s+(\d+)$` is tried
first, then the simple grammar `^(\w+)\s+(\d+)\s+-\s+Property\s+(\d+)$`;
`null` when neither matches.  Since the token classes are disjoint from
whitespace, a match is exactly a whitespace-token split of the right shape
with no leading or trailing whitespace. -/
def parseTransUnitId (id : Str) : Option TransUnitIdentity :=
  let lead := match id with | [] => true | c :: _ => isJsWs c
  let trail := match id.getLast? with | none => true | some c => isJsWs c
  if lead || trail then none
  else
    match splitWsTokens id with
    | [w, d, dash, w2, d2, dash2, prop, d3] =>
      if allWord w && allDigit d && dash == str "-" && allWord w2 && allDigit d2 &&
          dash2 == str "-" && prop == str "Property" && allDigit d3 then
        some ⟨w, d, some w2, some d2, d3⟩
      else none
    | [w, d, dash, prop, d2] =>
      if allWord w && allDigit d && dash == str "-" && prop == str "Property" &&
          allDigit d2 then
        some ⟨w, d, none, none, d2⟩
      else none
    | _ => none

/-! ### Context classifier (part_002 lines 627–719) -/

/-- Property id constants. -/
def PROPERTY_CAPTION : Str := str "2879900210"

/-- ToolTip property id constant. -/
def PROPERTY_TOOLTIP : Str := str "1295455071"

/-- The parsed `_contextFlags` bag of the `dataAttributes` JSON string
(`parseContextFlags`); `none` models a missing/unparsable bag. -/
structure ContextFlags where
  inActionBar : Bool
  inGrid : Bool
  inFieldGroup : Bool
  inContentArea : Bool
deriving DecidableEq, Repr

/-- The element context consumed by the matcher.  Optional string fields of
the source hold `''` when absent (`toText` coerces null/undefined to `''`
and the source tests them for truthiness), so `[]` models absence.  The
`dataAttributes` JSON string is modelled by its parsed flag bag. -/
structure MatchContext where
  elementType : Str
  propertyType : Str
  uiArea : Str
  htmlTag : Str
  ariaRole : Str
  isToolTip : Option Bool
  pageName : Str
  tableName : Str
  contextFlags : Option ContextFlags

/-- `getExpectedPropertyId`: an explicit `isToolTip` boolean wins, else the
trimmed lower-cased `propertyType` is matched against tooltip/caption. -/
def getExpectedPropertyId (ctx : MatchContext) : Option Str :=
  match ctx.isToolTip with
  | some b => some (if b then PROPERTY_TOOLTIP else PROPERTY_CAPTION)
  | none =>
    let prop := lowerStr (trimWs ctx.propertyType)
    if prop = str "tooltip" then some PROPERTY_TOOLTIP
    else if prop = str "caption" then some PROPERTY_CAPTION
    else none

/-- `getContextElementTypes` (extended revision): the union of plausible
XLIFF element types contributed by the declared element type (Column also
admits Field and Control), the UI area, the HTML tag, the ARIA role and
the context-flag bag.  The source accumulates into a `Set`; duplicates in
this list are harmless since the result is only tested for membership and
non-emptiness. -/
def getContextElementTypes (ctx : MatchContext) : List Str :=
  (if ctx.elementType ≠ [] then
    [ctx.elementType] ++
      (if lowerStr ctx.elementType = str "column" then [str "Field", str "Control"] else [])
   else []) ++
  (if ctx.uiArea = str "ActionBar" then [str "Action"] else []) ++
  (if ctx.uiArea = str "List" then [str "Column", str "Field", str "Control"] else []) ++
  (if ctx.uiArea = str "ContentArea" ∨ ctx.uiArea = str "Group" ∨
      ctx.uiArea = str "FieldGroup" then [str "Field", str "Control"] else []) ++
  (if ctx.htmlTag ≠ [] then
    (if lowerStr ctx.htmlTag = str "button" then [str "Action"] else []) ++
    (if lowerStr ctx.htmlTag = str "input" ∨ lowerStr ctx.htmlTag = str "select" ∨
        lowerStr ctx.htmlTag = str "textarea" then [str "Field", str "Control"] else [])
   else []) ++
  (if ctx.ariaRole ≠ [] then
    (if lowerStr ctx.ariaRole = str "columnheader" then
      [str "Column", str "Field", str "Control"] else []) ++
    (if lowerStr ctx.ariaRole = str "button" then [str "Action"] else [])
   else []) ++
  (match ctx.contextFlags with
   | none => []
   | some f =>
     (if f.inActionBar then [str "Action"] else []) ++
     (if f.inGrid then [str "Column", str "Field", str "Control"] else []) ++
     (if f.inFieldGroup ∨ f.inContentArea then [str "Field", str "Control"] else []))

/-- `matchesElementType` (extended revision, part_002 lines 175–201):
case-insensitive equality plus the fixed aliasing rules, including the
Column rules (Column accepts XLIFF Column, Control and Field). -/
def matchesElementType (xliffType : Option Str) (bcType : Str) : Bool :=
  match xliffType with
  | none => false
  | some x =>
    let xl := lowerStr x
    let bl := lowerStr bcType
    if xl = bl then true
    else if xl = str "control" ∧ bl = str "field" then true
    else if xl = str "field" ∧ bl = str "field" then true
    else if xl = str "action" ∧ bl = str "action" then true
    else if bl = str "column" then
      xl = str "column" ∨ xl = str "control" ∨ xl = str "field"
    else false

/-- `matchesAnyElementType`. -/
def matchesAnyElementType (xliffType : Str) (bcTypes : List Str) : Bool :=
  bcTypes.any fun bc => matchesElementType (some xliffType) bc

/-! ### Candidate matcher (part_002 lines 246–618) -/

/-- One weighted text candidate (prepared by `collectTextCandidates`). -/
structure TextCandidate where
  text : Str
  normalized : Str
  weight : ℚ
  source : Str
deriving DecidableEq, Repr

/-- The `targetLookup` map keyed by normalized text: the last candidate
with the given normalized key wins (`Map.set` overwrites). -/
def targetLookup (cands : List TextCandidate) (key : Str) : Option TextCandidate :=
  cands.foldl (fun acc c => if c.normalized = key then some c else acc) none

/-- The matcher's output record. -/
structure XliffCandidate where
  unitId : Str
  source : Str
  target : Str
  objectType : Str
  objectId : Str
  elementType : Option Str
  elementId : Option Str
  propertyId : Str
  note : Str
  confidence : ℚ
  matchSource : Str
  matchedText : Str
deriving DecidableEq, Repr

/-- `Math.min` on rationals. -/
def mathMinQ (a b : ℚ) : ℚ := if a ≤ b then a else b

/-- Base confidence `0.5 + weight * 0.1`. -/
def baseConfidence (weight : ℚ) : ℚ := 1/2 + weight * (1/10)

/-- Property-id bonus: `+0.2` when the expected property id is present and
matches. -/
def propBonus (expected : Option Str) (parsed : TransUnitIdentity) : ℚ :=
  match expected with
  | some e => if parsed.propertyId = e then 2/10 else 0
  | none => 0

/-- Element-type compatibility bonus: `+0.15` when the unit has an element
type, the context contributed at least one plausible type, and one of them
is compatible. -/
def elemTypeBonus (types : List Str) (parsed : TransUnitIdentity) : ℚ :=
  match parsed.elementType with
  | some et => if types ≠ [] ∧ matchesAnyElementType et types then 15/100 else 0
  | none => 0

/-- The six `+0.05` uiArea/htmlTag/ariaRole correlation bonuses (present
only in `findXliffCandidatesInternal`, part_002 lines 303–321). -/
def areaBonuses (ctx : MatchContext) (parsed : TransUnitIdentity) : ℚ :=
  (if ctx.uiArea = str "ActionBar" ∧ parsed.elementType = some (str "Action")
    then 5/100 else 0) +
  (if ctx.uiArea = str "List" ∧ parsed.elementType = some (str "Column")
    then 5/100 else 0) +
  (if (ctx.uiArea = str "ContentArea" ∨ ctx.uiArea = str "Group" ∨
       ctx.uiArea = str "FieldGroup") ∧
      (parsed.elementType = some (str "Field") ∨ parsed.elementType = some (str "Control"))
    then 5/100 else 0) +
  (if ctx.ariaRole = str "columnheader" ∧ parsed.elementType = some (str "Column")
    then 5/100 else 0) +
  (if ctx.htmlTag = str "button" ∧ parsed.elementType = some (str "Action")
    then 5/100 else 0) +
  (if ctx.htmlTag = str "input" ∧
      (parsed.elementType = some (str "Field") ∨ parsed.elementType = some (str "Control"))
    then 5/100 else 0)

/-- The Column bonuses (internal matcher only, part_002 lines 323–336):
`+0.15` for a Table/TableExtension Field, `+0.10` for a Page/PageExtension
Control, when the captured BC element type is Column. -/
def columnBonus (ctx : MatchContext) (parsed : TransUnitIdentity) : ℚ :=
  if lowerStr ctx.elementType = str "column" then
    let objType := lowerStr parsed.objectType
    (if (objType = str "table" ∨ objType = str "tableextension") ∧
        parsed.elementType = some (str "Field") then 15/100 else 0) +
    (if (objType = str "page" ∨ objType = str "pageextension") ∧
        parsed.elementType = some (str "Control") then 10/100 else 0)
  else 0

/-- Strip non-alphanumeric characters (`/[^a-z0-9]/g` removed; applied to
already lower-cased strings). -/
def stripNonAlnum (s : Str) : Str :=
  s.filter fun c => ('a' ≤ c && c ≤ 'z') || ('0' ≤ c && c ≤ '9')

/-- Check whether a `\s+-\s+` separator starts at the head of `s`: a
non-empty whitespace run directly followed by `-` directly followed by at
least one whitespace character (the `-` cannot sit inside the run, so no
other backtracking split exists). -/
def dashSepHere (s : Str) : Bool :=
  let run := s.takeWhile isJsWs
  !run.isEmpty && ((s.drop run.length).head? == some '-') &&
    (match (s.drop (run.length + 1)).head? with
     | some d => isJsWs d
     | none => false)

/-- Position of the lazy split of `(.+?)\s+-\s+`: the smallest `p ≥ 1` such
that the separator starts at offset `p`. -/
def dashSplitGo : Str → Nat → Option Nat
  | [], _ => none
  | c :: rest, p =>
    if 1 ≤ p ∧ dashSepHere (c :: rest) then some p
    else dashSplitGo rest (p + 1)

/-- The group search of `^(table|tableextension)\s+(.+?)\s+-\s+` after the
object-kind literal: greedy `\s+` tried from the maximal whitespace run
downwards, then the lazy group up to the first separator. -/
def noteGroupSearch (rem0 : Str) : Option Str :=
  let maxRun := rem0.takeWhile isJsWs
  (List.range maxRun.length).findSome? fun k =>
    let w := maxRun.length - k
    let rem := rem0.drop w
    (dashSplitGo rem 0).map fun p => rem.take p

/-- Capture 2 of `/^(table|tableextension)\s+(.+?)\s+-\s+/` on the
lower-cased note (`table` is tried first; when the following `\s+` fails
the alternation backtracks to `tableextension`). -/
def noteTableName (noteLower : Str) : Option Str :=
  match (if (str "table").isPrefixOf noteLower then
           noteGroupSearch (noteLower.drop 5)
         else none) with
  | some g => some g
  | none =>
    if (str "tableextension").isPrefixOf noteLower then
      noteGroupSearch (noteLower.drop 14)
    else none

/-- Remove one occurrence of `\s*suffix$` (case-insensitively). -/
def stripSuffixCI (suffix : Str) (s : Str) : Str :=
  let rev := s.reverse
  if ciPrefix suffix.reverse rev then
    ((rev.drop suffix.length).dropWhile isJsWs).reverse
  else s

/-- `deriveTableNameFromPage`: strip the fixed page-name suffixes in order
(list, card, subpage, subform, part, factbox, setup), then trim. -/
def deriveTableNameFromPage (pageNameLower : Str) : Str :=
  trimWs (stripSuffixCI (str "setup")
    (stripSuffixCI (str "factbox")
      (stripSuffixCI (str "part")
        (stripSuffixCI (str "subform")
          (stripSuffixCI (str "subpage")
            (stripSuffixCI (str "card")
              (stripSuffixCI (str "list") pageNameLower)))))))

/-- The page/table affinity filter (part_002 lines 338–393, identical in
both matcher revisions): `none` means the unit is skipped entirely;
otherwise the page (+0.35) or table (+0.15) bonus, or 0 when the filter is
not applicable (no page/table context or no note). -/
def pageTableEval (ctx : MatchContext) (note : Str) : Option ℚ :=
  if ((!ctx.pageName.isEmpty || !ctx.tableName.isEmpty) && !note.isEmpty : Bool) then
    let noteLower := lowerStr note
    let isPageMatch : Bool :=
      !ctx.pageName.isEmpty &&
      ((str "page " ++ lowerStr ctx.pageName ++ str " -").isPrefixOf noteLower ||
       (str "pageextension " ++ lowerStr ctx.pageName ++ str " -").isPrefixOf noteLower)
    let isTableMatch : Bool :=
      if !ctx.tableName.isEmpty then
        let tableNameLower := lowerStr ctx.tableName
        if (str "table " ++ tableNameLower ++ str " -").isPrefixOf noteLower ||
           (str "tableextension " ++ tableNameLower ++ str " -").isPrefixOf noteLower then
          true
        else
          match noteTableName noteLower with
          | some noteTable => stripNonAlnum tableNameLower == stripNonAlnum noteTable
          | none => false
      else if !ctx.pageName.isEmpty then
        let possibleTableName := deriveTableNameFromPage (lowerStr ctx.pageName)
        !possibleTableName.isEmpty &&
        ((str "table " ++ possibleTableName ++ str " -").isPrefixOf noteLower ||
         (str "tableextension " ++ possibleTableName ++ str " -").isPrefixOf noteLower)
      else false
    if !isPageMatch && !isTableMatch then none
    else some (if isPageMatch then 35/100 else 15/100)
  else some 0

/-- The hard property filter (`expectedPropertyId && parsed.propertyId !==
expectedPropertyId`). -/
def propertyFiltered (expected : Option Str) (parsed : TransUnitIdentity) : Bool :=
  match expected with
  | some e => parsed.propertyId != e
  | none => false

/-- Per-unit evaluation of `findXliffCandidatesInternal` (part_002 lines
265–414): `none` when the unit is skipped (no target, no text match,
unparsable id, property filter, page/table filter), otherwise the produced
candidate.  The confidence sums the base, property, element-type, area,
column and page/table contributions and is clamped by `Math.min(1, ·)`. -/
def evalUnitInternal (ctx : MatchContext) (expected : Option Str) (types : List Str)
    (cands : List TextCandidate) (unitId whole : Str) : Option XliffCandidate :=
  match findTagMatch (str "target") whole with
  | none => none
  | some tm =>
    let unitTarget := normalizeText tm.content
    match targetLookup cands unitTarget with
    | none => none
    | some tc =>
      match parseTransUnitId unitId with
      | none => none
      | some parsed =>
        if propertyFiltered expected parsed then none
        else
          let source :=
            match findTagMatch (str "source") whole with
            | some sm => decodeXmlEntities sm.content
            | none => []
          let note :=
            match findNoteContent whole with
            | some nc => trimWs nc
            | none => []
          match pageTableEval ctx note with
          | none => none
          | some ptBonus =>
            some { unitId := unitId, source := source, target := unitTarget
                 , objectType := parsed.objectType, objectId := parsed.objectId
                 , elementType := parsed.elementType, elementId := parsed.elementId
                 , propertyId := parsed.propertyId, note := note
                 , confidence := mathMinQ 1
                     (baseConfidence tc.weight + propBonus expected parsed +
                      elemTypeBonus types parsed + areaBonuses ctx parsed +
                      columnBonus ctx parsed + ptBonus)
                 , matchSource := tc.source, matchedText := tc.text }

/-- The `candidateMap` insertion: an existing entry for the same unit id is
replaced (in place) only by a strictly higher confidence; a new id is
appended. -/
def insertCandidate (m : List XliffCandidate) (c : XliffCandidate) : List XliffCandidate :=
  if m.any fun x => x.unitId == c.unitId then
    m.map fun x => if x.unitId == c.unitId && decide (x.confidence < c.confidence) then c else x
  else m ++ [c]

/-- Insert into a descending-by-confidence list, after entries with equal
confidence (stability). -/
def insertDesc (c : XliffCandidate) : List XliffCandidate → List XliffCandidate
  | [] => [c]
  | x :: xs =>
    if x.confidence ≤ c.confidence then c :: x :: xs else x :: insertDesc c xs

/-- The stable descending sort `candidates.sort((a, b) => b.confidence -
a.confidence)` (JavaScript `Array.sort` is stable; stable sorting is a
unique function, realised here by insertion sort). -/
def sortByConfidence : List XliffCandidate → List XliffCandidate
  | [] => []
  | c :: cs => insertDesc c (sortByConfidence cs)

/-- Page-typed candidate test of the priority filter. -/
def isPageType (c : XliffCandidate) : Bool :=
  lowerStr c.objectType == str "page" || lowerStr c.objectType == str "pageextension"

/-- The deduplicated candidate set of the internal matcher, before the
priority filter and sort (the contents of `candidateMap`, in first-insertion
order). -/
def collectCandidatesInternal (xliffContent : Str) (cands : List TextCandidate)
    (ctx : MatchContext) : List XliffCandidate :=
  let expected := getExpectedPropertyId ctx
  let types := getContextElementTypes ctx
  (scanUnits xliffContent).foldl
    (fun acc u =>
      match evalUnitInternal ctx expected types cands u.1 u.2 with
      | none => acc
      | some c => insertCandidate acc c) []

/-- `findXliffCandidatesInternal` (part_002 lines 246–435): collect and
deduplicate candidates, apply the priority filter (when any Page or
PageExtension candidate exists, keep only Page/PageExtension candidates),
then sort descending by confidence. -/
def findXliffCandidatesInternal (xliffContent : Str) (cands : List TextCandidate)
    (ctx : MatchContext) : List XliffCandidate :=
  let m := collectCandidatesInternal xliffContent cands ctx
  let hasPage := m.any isPageType
  let finalCandidates := if hasPage then m.filter isPageType else m
  sortByConfidence finalCandidates

/-- Outcome of one unit in the diagnostics-returning matcher. -/
inductive DiagOutcome where
  | skip : DiagOutcome
  | badId : DiagOutcome
  | propFiltered (note : Str) : DiagOutcome
  | pageTableFiltered (note : Str) : DiagOutcome
  | matched (note : Str) (cand : XliffCandidate) : DiagOutcome
deriving DecidableEq, Repr

/-- Per-unit evaluation of `findXliffCandidatesInternalWithDiagnostics`
(part_002 lines 462–575).  Its confidence computation has only the base,
property and element-type contributions and the page/table bonus — the six
`+0.05` correlation bonuses and the Column `+0.15`/`+0.10` bonuses of the
internal matcher are absent from this code path. -/
def evalUnitDiag (ctx : MatchContext) (expected : Option Str) (types : List Str)
    (cands : List TextCandidate) (unitId whole : Str) : DiagOutcome :=
  match findTagMatch (str "target") whole with
  | none => .skip
  | some tm =>
    let unitTarget := normalizeText tm.content
    match targetLookup cands unitTarget with
    | none => .skip
    | some tc =>
      match parseTransUnitId unitId with
      | none => .badId
      | some parsed =>
        let note :=
          match findNoteContent whole with
          | some nc => trimWs nc
          | none => []
        if propertyFiltered expected parsed then .propFiltered note
        else
          let source :=
            match findTagMatch (str "source") whole with
            | some sm => decodeXmlEntities sm.content
            | none => []
          match pageTableEval ctx note with
          | none => .pageTableFiltered note
          | some ptBonus =>
            .matched note
              { unitId := unitId, source := source, target := unitTarget
              , objectType := parsed.objectType, objectId := parsed.objectId
              , elementType := parsed.elementType, elementId := parsed.elementId
              , propertyId := parsed.propertyId, note := note
              , confidence := mathMinQ 1
                  (baseConfidence tc.weight + propBonus expected parsed +
                   elemTypeBonus types parsed + ptBonus)
              , matchSource := tc.source, matchedText := tc.text }

/-- Diagnostics record (`MatchDiagnostics`). -/
structure MatchDiagnostics where
  searchedText : Str
  normalizedSearchText : Str
  textMatchCount : Nat
  propertyFilteredCount : Nat
  pageTableFilteredCount : Nat
  finalMatchCount : Nat
  sampleTextMatches : List Str
  filterReason : Option Str
deriving DecidableEq, Repr

/-- Intermediate state of the diagnostics fold. -/
structure DiagState where
  candMap : List XliffCandidate
  textMatchCount : Nat
  propertyFilteredCount : Nat
  pageTableFilteredCount : Nat
  samples : List Str
deriving DecidableEq, Repr

/-- Push a sample note (`note || unitId`, at most 5 samples). -/
def pushSample (samples : List Str) (note unitId : Str) : List Str :=
  if samples.length < 5 then
    samples ++ [if note.isEmpty then unitId else note]
  else samples

/-- One step of the diagnostics fold. -/
def diagStep (ctx : MatchContext) (expected : Option Str) (types : List Str)
    (cands : List TextCandidate) (st : DiagState) (u : Str × Str) : DiagState :=
  match evalUnitDiag ctx expected types cands u.1 u.2 with
  | .skip => st
  | .badId => { st with textMatchCount := st.textMatchCount + 1 }
  | .propFiltered note =>
    { st with textMatchCount := st.textMatchCount + 1
            , propertyFilteredCount := st.propertyFilteredCount + 1
            , samples := pushSample st.samples note u.1 }
  | .pageTableFiltered note =>
    { st with textMatchCount := st.textMatchCount + 1
            , pageTableFilteredCount := st.pageTableFilteredCount + 1
            , samples := pushSample st.samples note u.1 }
  | .matched note c =>
    { st with textMatchCount := st.textMatchCount + 1
            , samples := pushSample st.samples note u.1
            , candMap := insertCandidate st.candMap c }

/-- Decimal rendering of a counter for the filter-reason strings. -/
def natStr (n : Nat) : Str := (Nat.repr n).toList

/-- `findXliffCandidatesInternalWithDiagnostics` (part_002 lines 437–618):
the final candidate list (deduplicated, priority-filtered, sorted) together
with the diagnostics: counters for each rejection stage, up to five sample
notes, the deduplicated count (`finalMatchCount`, taken by the source from
the pre-filter list), and a reason string when the final list is empty. -/
def findXliffCandidatesInternalWithDiagnostics (xliffContent : Str)
    (cands : List TextCandidate) (ctx : MatchContext) :
    List XliffCandidate × MatchDiagnostics :=
  let expected := getExpectedPropertyId ctx
  let types := getContextElementTypes ctx
  let st := (scanUnits xliffContent).foldl
    (fun st u => diagStep ctx expected types cands st u) ⟨[], 0, 0, 0, []⟩
  let m := st.candMap
  let hasPage := m.any isPageType
  let finalCandidates := if hasPage then m.filter isPageType else m
  let sorted := sortByConfidence finalCandidates
  let filterReason : Option Str :=
    if st.textMatchCount = 0 then
      some (str "No trans-units found with matching target text")
    else if 0 < st.propertyFilteredCount ∧ sorted.length = 0 then
      some (natStr st.propertyFilteredCount ++
        str " trans-units filtered by property type (Caption vs ToolTip)")
    else if 0 < st.pageTableFilteredCount ∧ sorted.length = 0 then
      some (natStr st.pageTableFilteredCount ++
        str " trans-units filtered by page/table name mismatch")
    else none
  (sorted,
   { searchedText := (cands.head?.map TextCandidate.text).getD []
   , normalizedSearchText := (cands.head?.map TextCandidate.normalized).getD []
   , textMatchCount := st.textMatchCount
   , propertyFilteredCount := st.propertyFilteredCount
   , pageTableFilteredCount := st.pageTableFilteredCount
   , finalMatchCount := m.length
   , sampleTextMatches := st.samples
   , filterReason := filterReason })

/-! ### Concrete matcher scenarios used by the priority-filter and
bonus claims -/

/-- A document with a Page-typed unit and a Codeunit-typed unit sharing the
target text "Setup". -/
def c1Doc : Str := str "<trans-unit id=\"Page 1 - Control 2 - Property 2879900210\"><source>Setup</source><target>Setup</target></trans-unit><trans-unit id=\"Codeunit 3 - Property 2879900210\"><source>Setup</source><target>Setup</target></trans-unit>"

/-- The single full-weight text candidate "Setup". -/
def c1Cands : List TextCandidate :=
  [⟨str "Setup", str "setup", 1, str "targetText"⟩]

/-- A caption context with no element type and no page/table names. -/
def c1Ctx : MatchContext :=
  { elementType := [], propertyType := str "Caption", uiArea := []
  , htmlTag := [], ariaRole := [], isToolTip := none
  , pageName := [], tableName := [], contextFlags := none }

/-- An arbitrary concrete candidate record used to instantiate the
priority-filter membership theorem. -/
def cWitnessCand : XliffCandidate :=
  { unitId := [], source := [], target := [], objectType := str "Page"
  , objectId := [], elementType := none, elementId := none, propertyId := []
  , note := [], confidence := 0, matchSource := [], matchedText := [] }

/-- A document with a single Table-Field unit whose target is "Item". -/
def c5Doc : Str := str "<trans-unit id=\"Table 1 - Field 2 - Property 2879900210\"><source>Item</source><target>Item</target></trans-unit>"

/-- The single full-weight text candidate "Item". -/
def c5Cands : List TextCandidate :=
  [⟨str "Item", str "item", 1, str "targetText"⟩]

/-- A Column-in-a-List caption context (the configuration that enables both
the element-type bonus and the internal matcher's Column bonus). -/
def c5Ctx : MatchContext :=
  { elementType := str "Column", propertyType := str "Caption", uiArea := str "List"
  , htmlTag := [], ariaRole := [], isToolTip := none
  , pageName := [], tableName := [], contextFlags := none }

/-- The id of the unit in `c5Doc`. -/
def c5UnitId : Str := str "Table 1 - Field 2 - Property 2879900210"

/-- The candidate the diagnostics matcher produces for `c5Doc`. -/
def c5DiagCand : XliffCandidate :=
  { unitId := c5UnitId, source := str "Item", target := str "item"
  , objectType := str "Table", objectId := str "1"
  , elementType := some (str "Field"), elementId := some (str "2")
  , propertyId := str "2879900210", note := []
  , confidence := mathMinQ 1 (baseConfidence 1 + 2/10 + 15/100 + 0)
  , matchSource := str "targetText", matchedText := str "Item" }

/-! ### Trans-unit decomposition used for the frame theorem -/

/-- Scan `s` with the trans-unit regex, returning the list of
(pre-text, unit id, whole block) segments and the unscanned remainder. -/
def scanDecompGo : Nat → Str → List (Str × Str × Str) × Str
  | 0, s => ([], s)
  | fuel + 1, s =>
    match findUnitMatch s with
    | none => ([], s)
    | some m =>
      let r := scanDecompGo fuel m.rest
      ((m.pre, m.unitId, m.whole) :: r.1, r.2)

/-- The output of a target update differs from the input unit in at most
one region: either nothing changes, or a region beginning with `<target`
(case-insensitively) is replaced by the `GetSubstitution` expansion of the
generated target element against that match (one capture group for a
closed target element, none for a self-closing one), or the new target
element (with a newline and the detected indentation) is inserted between
two halves of the unit. -/
def TargetOnlyEdit (translated unit out : Str) : Prop :=
  out = unit ∨
  (∃ a span b content, unit = a ++ span ++ b ∧
     ciPrefix (str "<target") span = true ∧
     out = a ++ getSubst span a b [content] (targetTag translated) ++ b) ∨
  (∃ a span b, unit = a ++ span ++ b ∧ ciPrefix (str "<target") span = true ∧
     out = a ++ getSubst span a b [] (targetTag translated) ++ b) ∨
  (∃ a b, unit = a ++ b ∧
     out = a ++ str "\n" ++ detectIndent unit ++ targetTag translated ++ b)

/-! ### Whitespace canonicalization (for the C10 analysis) -/

/-- Right trim: remove trailing JS whitespace. -/
def rtrim (s : Str) : Str := (s.reverse.dropWhile isJsWs).reverse

/-- Join a token list with single spaces. -/
def joinSp : List Str → Str
  | [] => []
  | [t] => t
  | t :: ts => t ++ ' ' :: joinSp ts

/-- Whether the string starts with JS whitespace. -/
def headWs : Str → Bool
  | [] => false
  | c :: _ => isJsWs c

/-- Spec-level notion for C10: two strings differ at most in letter case
and in whitespace (runs of whitespace, or leading/trailing whitespace)
exactly when their whitespace-separated token sequences agree after
lower-casing. -/
def CaseWsEquiv (s t : Str) : Prop :=
  (splitWsTokens s).map lowerStr = (splitWsTokens t).map lowerStr

/-- Concrete document for the C10 witness: one unit whose target differs
from the update text only in case and whitespace. -/
def c10Doc : Str :=
  str "<trans-unit id=\"u1\"><source>Hello World</source><target>HELLO   World </target></trans-unit>"

/-- The update map of the C10 witness. -/
def c10Updates : List (Str × Str) := [(str "u1", str "hello world")]

/-- The unit match of the C10 witness document. -/
def c10Um : UnitMatch := ⟨[], c10Doc, str "u1", []⟩

/-- The target-element match inside the C10 witness unit. -/
def c10Tm : TagMatch :=
  ⟨str "<trans-unit id=\"u1\"><source>Hello World</source>", str "<target>",
   str "HELLO   World ", str "</target>", str "</trans-unit>"⟩

/-- C3 counterexample document: a trans-unit with a stray unclosed
`<target` fragment followed by a self-closing target. -/
def c3Doc : Str := str "<trans-unit id=\"u\"><target a><target/></trans-unit>"

/-- The update map of the C3 counterexample. -/
def c3Updates : List (Str × Str) := [(str "u", str "T")]

/-! ### Theorems -/

/-! #### C1: the priority filter of the candidate matcher -/

/-- Helper: membership through the descending insertion. -/
theorem mem_insertDesc (a c : XliffCandidate) (l : List XliffCandidate) :
    a ∈ insertDesc c l ↔ a = c ∨ a ∈ l := by
  induction l with
  | nil => simp [insertDesc]
  | cons x xs ih =>
    by_cases h : x.confidence ≤ c.confidence
    all_goals simp [insertDesc, h, ih]
    all_goals tauto

/-- Helper: the confidence sort is a permutation (membership-preserving). -/
theorem mem_sortByConfidence (a : XliffCandidate) (l : List XliffCandidate) :
    a ∈ sortByConfidence l ↔ a ∈ l := by
  induction l with
  | nil => simp [sortByConfidence]
  | cons c cs ih => simp [sortByConfidence, mem_insertDesc, ih]

/-- C1 counterexample: on a document whose deduplicated candidate set
consists of a Page-typed and a Codeunit-typed candidate (no Table or
TableExtension candidates at all), the final list omits the Codeunit
candidate — contradicting the claim that only Table/TableExtension
candidates are dropped and every other object type is retained. -/
theorem priority_filter_counterexample :
    (collectCandidatesInternal c1Doc c1Cands c1Ctx).map XliffCandidate.objectType
      = [str "Page", str "Codeunit"] ∧
    (findXliffCandidatesInternal c1Doc c1Cands c1Ctx).map XliffCandidate.objectType
      = [str "Page"] := ⟨rfl, rfl⟩

/-- C1 (amended): when the deduplicated candidate set contains at least one
Page/PageExtension candidate, the final list consists of exactly the
Page/PageExtension candidates — every candidate of any other object type
(Table, TableExtension, but also Codeunit, Report, …) is dropped. -/
theorem priority_filter_keeps_only_pages (doc : Str) (cands : List TextCandidate)
    (ctx : MatchContext)
    (hpage : (collectCandidatesInternal doc cands ctx).any isPageType = true)
    (c : XliffCandidate) :
    c ∈ findXliffCandidatesInternal doc cands ctx ↔
      c ∈ collectCandidatesInternal doc cands ctx ∧ isPageType c = true := by
  unfold findXliffCandidatesInternal
  simp only [hpage, if_true, mem_sortByConfidence, List.mem_filter]

/-- C1 witness: the amended theorem applied to the concrete document. -/
theorem priority_filter_keeps_only_pages_witness :
    cWitnessCand ∈ findXliffCandidatesInternal c1Doc c1Cands c1Ctx ↔
      cWitnessCand ∈ collectCandidatesInternal c1Doc c1Cands c1Ctx ∧
        isPageType cWitnessCand = true :=
  priority_filter_keeps_only_pages c1Doc c1Cands c1Ctx rfl cWitnessCand

/-! #### C5: the bonus terms of the diagnostics-returning matcher -/

/-- C5 counterexample: on a Column-context match against a Table-Field
unit, the diagnostics-returning matcher yields confidence 0.95
(base 0.6 + property 0.2 + element-type 0.15), while the claim — which
says the +0.15 Column/Table-Field bonus is included — would give 1.0
(clamped); the internal matcher, which does apply the bonus, yields 1.0. -/
theorem diag_bonuses_counterexample :
    (findXliffCandidatesInternalWithDiagnostics c5Doc c5Cands c5Ctx).1.map
        XliffCandidate.confidence = [19/20] ∧
    (findXliffCandidatesInternal c5Doc c5Cands c5Ctx).map
        XliffCandidate.confidence = [1] ∧
    (19/20 : ℚ) ≠ 1 := by
  refine ⟨?_, ?_, by norm_num⟩
  · have h : (findXliffCandidatesInternalWithDiagnostics c5Doc c5Cands c5Ctx).1.map
        XliffCandidate.confidence
        = [mathMinQ 1 (baseConfidence 1 + 2/10 + 15/100 + 0)] := rfl
    rw [h]
    norm_num [mathMinQ, baseConfidence]
  · have h : (findXliffCandidatesInternal c5Doc c5Cands c5Ctx).map
        XliffCandidate.confidence
        = [mathMinQ 1 (baseConfidence 1 + 2/10 + 15/100 + (0+0+0+0+0+0) + (15/100 + 0) + 0)] := rfl
    rw [h]
    norm_num [mathMinQ, baseConfidence]

/-- C5 (amended): the diagnostics-returning matcher computes, for every
matched unit, only base + property + element-type + page/table
contributions; the six +0.05 correlation bonuses and the Column
+0.15/+0.10 bonuses are applied only by the non-diagnostics internal
matcher, whose candidate for the same unit is identical except that those
two bonus families are added to the sum before clamping. -/
theorem evalUnitDiag_matched_vs_internal (ctx : MatchContext) (expected : Option Str)
    (types : List Str) (cands : List TextCandidate) (unitId whole : Str)
    (note : Str) (c : XliffCandidate)
    (hd : evalUnitDiag ctx expected types cands unitId whole = .matched note c) :
    ∃ tm parsed tc ptb,
      findTagMatch (str "target") whole = some tm ∧
      targetLookup cands (normalizeText tm.content) = some tc ∧
      parseTransUnitId unitId = some parsed ∧
      pageTableEval ctx note = some ptb ∧
      c.confidence = mathMinQ 1 (baseConfidence tc.weight + propBonus expected parsed +
        elemTypeBonus types parsed + ptb) ∧
      evalUnitInternal ctx expected types cands unitId whole =
        some { c with confidence := mathMinQ 1 (baseConfidence tc.weight +
          propBonus expected parsed + elemTypeBonus types parsed +
          areaBonuses ctx parsed + columnBonus ctx parsed + ptb) } := by
  simp only [evalUnitDiag] at hd
  split at hd
  · exact absurd hd (by simp)
  rename_i tm htm
  split at hd
  · exact absurd hd (by simp)
  rename_i tc htc
  split at hd
  · exact absurd hd (by simp)
  rename_i parsed hparsed
  split at hd
  · exact absurd hd (by simp)
  rename_i hpropf
  split at hd
  · exact absurd hd (by simp)
  rename_i ptb hpt
  cases hd
  refine ⟨tm, parsed, tc, ptb, htm, htc, hparsed, hpt, rfl, ?_⟩
  simp [evalUnitInternal, htm, htc, hparsed, hpropf, hpt]

/-- C5 witness: the amended theorem applied to the concrete Column-context
scenario. -/
theorem evalUnitDiag_matched_vs_internal_witness :
    ∃ tm parsed tc ptb,
      findTagMatch (str "target") c5Doc = some tm ∧
      targetLookup c5Cands (normalizeText tm.content) = some tc ∧
      parseTransUnitId c5UnitId = some parsed ∧
      pageTableEval c5Ctx [] = some ptb ∧
      c5DiagCand.confidence = mathMinQ 1 (baseConfidence tc.weight +
        propBonus (getExpectedPropertyId c5Ctx) parsed +
        elemTypeBonus (getContextElementTypes c5Ctx) parsed + ptb) ∧
      evalUnitInternal c5Ctx (getExpectedPropertyId c5Ctx) (getContextElementTypes c5Ctx)
          c5Cands c5UnitId c5Doc =
        some { c5DiagCand with confidence := mathMinQ 1 (baseConfidence tc.weight +
          propBonus (getExpectedPropertyId c5Ctx) parsed +
          elemTypeBonus (getContextElementTypes c5Ctx) parsed +
          areaBonuses c5Ctx parsed + columnBonus c5Ctx parsed + ptb) } :=
  evalUnitDiag_matched_vs_internal c5Ctx (getExpectedPropertyId c5Ctx)
    (getContextElementTypes c5Ctx) c5Cands c5UnitId c5Doc [] c5DiagCand rfl

/-! #### C9: `xmlUnescape` inverts `xmlEscape` -/

theorem tokMap_id (s : Str) : tokMap (fun c => [c]) s = s := by
  induction s with
  | nil => rfl
  | cons c s ih => simp [tokMap, ih]

theorem isPrefixOf_append_self (p rest : Str) : p.isPrefixOf (p ++ rest) = true := by
  induction p with
  | nil => simp
  | cons a as ih => simp [List.isPrefixOf_cons₂, ih]

theorem replaceAllGo_nil (p r : Str) (n : Nat) : replaceAllGo p r n [] = [] := by
  cases n <;> rfl

theorem replaceAllGo_match (p r : Str) (hp : p ≠ []) (n : Nat) (rest : Str) :
    replaceAllGo p r (n + 1) (p ++ rest) = r ++ replaceAllGo p r n rest := by
  cases p with
  | nil => exact absurd rfl hp
  | cons a as =>
    show replaceAllGo (a :: as) r (n + 1) (a :: (as ++ rest)) = _
    rw [replaceAllGo, if_pos]
    · have : List.drop ((a :: as).length - 1) (as ++ rest) = rest := by
        simp [List.drop_left]
      rw [this]
    · exact ⟨by rw [← List.cons_append]; exact (isPrefixOf_append_self _ _), by simp⟩

theorem replaceAllGo_skip_char (p r : Str) (c : Char) (n : Nat) (s : Str)
    (h : p.isPrefixOf (c :: s) = false) :
    replaceAllGo p r (n + 1) (c :: s) = c :: replaceAllGo p r n s := by
  rw [replaceAllGo, if_neg]
  intro hcontra
  rw [h] at hcontra
  exact absurd hcontra.1 (by simp)

theorem replaceAllGo_skip_token (p r t : Str)
    (ht : ∀ i, i < t.length → ∀ rest, p.isPrefixOf (List.drop i t ++ rest) = false) :
    ∀ (rest : Str) (n : Nat),
      replaceAllGo p r (n + t.length) (t ++ rest) = t ++ replaceAllGo p r n rest := by
  induction t with
  | nil => intro rest n; simp
  | cons c t ih =>
    intro rest n
    have h0 : p.isPrefixOf (c :: (t ++ rest)) = false := by
      have := ht 0 (by simp) rest
      simpa using this
    have harith : n + (c :: t).length = (n + t.length) + 1 := by simp; omega
    rw [harith, List.cons_append, replaceAllGo_skip_char p r c _ _ h0]
    rw [ih (fun i hi rest => by simpa using ht (i + 1) (by simpa using Nat.succ_lt_succ hi) rest) rest n]
    rfl

theorem replaceAllGo_tokMap (p r : Str) (hp : p ≠ []) (tok tok' : Char → Str)
    (hcase : ∀ c, (tok c = p ∧ tok' c = r) ∨
      (tok' c = tok c ∧ ∀ i, i < (tok c).length → ∀ rest,
        p.isPrefixOf (List.drop i (tok c) ++ rest) = false)) :
    ∀ (s : Str) (n : Nat), (tokMap tok s).length ≤ n →
      replaceAllGo p r n (tokMap tok s) = tokMap tok' s := by
  intro s
  induction s with
  | nil => intro n _; exact replaceAllGo_nil p r n
  | cons c s ih =>
    intro n hn
    show replaceAllGo p r n (tok c ++ tokMap tok s) = tok' c ++ tokMap tok' s
    rcases hcase c with ⟨htok, htok'⟩ | ⟨htok', hskip⟩
    · have hlen : 1 ≤ p.length := by
        cases p with
        | nil => exact absurd rfl hp
        | cons a as => simp
      have hn' : (tokMap tok s).length + 1 ≤ n := by
        have : (tok c ++ tokMap tok s).length = p.length + (tokMap tok s).length := by
          rw [htok]; simp
        simp only [tokMap] at hn
        rw [this] at hn
        omega
      obtain ⟨m, rfl⟩ : ∃ m, n = m + 1 := ⟨n - 1, by omega⟩
      rw [htok, htok', replaceAllGo_match p r hp m (tokMap tok s)]
      rw [ih m (by omega)]
    · have hlen : (tok c).length + (tokMap tok s).length ≤ n := by
        simpa [tokMap] using hn
      obtain ⟨n₀, rfl⟩ : ∃ n₀, n = n₀ + (tok c).length := ⟨n - (tok c).length, by omega⟩
      rw [replaceAllGo_skip_token p r (tok c) hskip (tokMap tok s) n₀]
      rw [htok', ih n₀ (by omega)]



theorem isPrefixOf_head_ne (a : Char) (p rest : Str) (c : Char) (h : c ≠ a) :
    (a :: p).isPrefixOf (c :: rest) = false := by
  have hne : (a == c) = false := beq_eq_false_iff_ne.2 fun hh => h hh.symm
  rw [List.isPrefixOf_cons₂, hne, Bool.false_and]

theorem escPass1 (s : Str) (n : Nat) (hn : s.length ≤ n) :
    replaceAllGo (str "&") (str "&amp;") n s = tokMap esc1 s := by
  have h := replaceAllGo_tokMap (str "&") (str "&amp;") (by simp [str])
    (fun c => [c]) esc1 ?_ s n (by rw [tokMap_id]; exact hn)
  · rw [tokMap_id] at h; exact h
  · intro c
    by_cases h1 : c = '&'
    · subst h1; exact .inl ⟨by simp [str], by simp [esc1]⟩
    · refine .inr ⟨by simp [esc1, h1], ?_⟩
      intro i hi rest
      simp only [List.length_singleton] at hi
      have hi0 : i = 0 := by simp at hi; omega
      subst hi0
      simpa [str] using isPrefixOf_head_ne '&' [] rest c h1



theorem escPass2 (s : Str) (n : Nat) (hn : (tokMap esc1 s).length ≤ n) :
    replaceAllGo (str "<") (str "&lt;") n (tokMap esc1 s) = tokMap esc2 s := by
  refine replaceAllGo_tokMap _ _ (by simp [str]) esc1 esc2 ?_ s n hn
  intro c
  by_cases hamp : c = '&'
  · subst hamp
    refine .inr ⟨by simp [esc1, esc2], ?_⟩
    intro i hi rest
    rw [show esc1 '&' = str "&amp;" by simp [esc1]] at hi ⊢
    simp [str] at hi
    interval_cases i <;> simp [str, List.isPrefixOf_cons₂]
  by_cases hlt : c = '<'
  · subst hlt
    exact .inl ⟨by simp [esc1, str], by simp [esc2, str]⟩
  · refine .inr ⟨by simp [esc1, esc2, hamp, hlt], ?_⟩
    intro i hi rest
    rw [show esc1 c = [c] by simp [esc1, hamp]] at hi ⊢
    simp only [List.length_singleton] at hi
    have hi0 : i = 0 := by omega
    subst hi0
    simpa [str] using isPrefixOf_head_ne '<' ([] : Str) rest c hlt

theorem escPass3 (s : Str) (n : Nat) (hn : (tokMap esc2 s).length ≤ n) :
    replaceAllGo (str ">") (str "&gt;") n (tokMap esc2 s) = tokMap esc3 s := by
  refine replaceAllGo_tokMap _ _ (by simp [str]) esc2 esc3 ?_ s n hn
  intro c
  by_cases hamp : c = '&'
  · subst hamp
    refine .inr ⟨by simp [esc2, esc3], ?_⟩
    intro i hi rest
    rw [show esc2 '&' = str "&amp;" by simp [esc2]] at hi ⊢
    simp [str] at hi
    interval_cases i <;> simp [str, List.isPrefixOf_cons₂]
  by_cases hlt : c = '<'
  · subst hlt
    refine .inr ⟨by simp [esc2, esc3], ?_⟩
    intro i hi rest
    rw [show esc2 '<' = str "&lt;" by simp [esc2]] at hi ⊢
    simp [str] at hi
    interval_cases i <;> simp [str, List.isPrefixOf_cons₂]
  by_cases hgt : c = '>'
  · subst hgt
    exact .inl ⟨by simp [esc2, str], by simp [esc3, str]⟩
  · refine .inr ⟨by simp [esc2, esc3, hamp, hlt, hgt], ?_⟩
    intro i hi rest
    rw [show esc2 c = [c] by simp [esc2, hamp, hlt]] at hi ⊢
    simp only [List.length_singleton] at hi
    have hi0 : i = 0 := by omega
    subst hi0
    simpa [str] using isPrefixOf_head_ne '>' ([] : Str) rest c hgt

theorem escPass4 (s : Str) (n : Nat) (hn : (tokMap esc3 s).length ≤ n) :
    replaceAllGo (str "\"") (str "&quot;") n (tokMap esc3 s) = tokMap esc4 s := by
  refine replaceAllGo_tokMap _ _ (by simp [str]) esc3 esc4 ?_ s n hn
  intro c
  by_cases hamp : c = '&'
  · subst hamp
    refine .inr ⟨by simp [esc3, esc4], ?_⟩
    intro i hi rest
    rw [show esc3 '&' = str "&amp;" by simp [esc3]] at hi ⊢
    simp [str] at hi
    interval_cases i <;> simp [str, List.isPrefixOf_cons₂]
  by_cases hlt : c = '<'
  · subst hlt
    refine .inr ⟨by simp [esc3, esc4], ?_⟩
    intro i hi rest
    rw [show esc3 '<' = str "&lt;" by simp [esc3]] at hi ⊢
    simp [str] at hi
    interval_cases i <;> simp [str, List.isPrefixOf_cons₂]
  by_cases hgt : c = '>'
  · subst hgt
    refine .inr ⟨by simp [esc3, esc4], ?_⟩
    intro i hi rest
    rw [show esc3 '>' = str "&gt;" by simp [esc3]] at hi ⊢
    simp [str] at hi
    interval_cases i <;> simp [str, List.isPrefixOf_cons₂]
  by_cases hqu : c = '\"'
  · subst hqu
    exact .inl ⟨by simp [esc3, str], by simp [esc4, str]⟩
  · refine .inr ⟨by simp [esc3, esc4, hamp, hlt, hgt, hqu], ?_⟩
    intro i hi rest
    rw [show esc3 c = [c] by simp [esc3, hamp, hlt, hgt]] at hi ⊢
    simp only [List.length_singleton] at hi
    have hi0 : i = 0 := by omega
    subst hi0
    simpa [str] using isPrefixOf_head_ne '\"' ([] : Str) rest c hqu

theorem escPass5 (s : Str) (n : Nat) (hn : (tokMap esc4 s).length ≤ n) :
    replaceAllGo (str "'") (str "&apos;") n (tokMap esc4 s) = tokMap escTok s := by
  refine replaceAllGo_tokMap _ _ (by simp [str]) esc4 escTok ?_ s n hn
  intro c
  by_cases hamp : c = '&'
  · subst hamp
    refine .inr ⟨by simp [esc4, escTok], ?_⟩
    intro i hi rest
    rw [show esc4 '&' = str "&amp;" by simp [esc4]] at hi ⊢
    simp [str] at hi
    interval_cases i <;> simp [str, List.isPrefixOf_cons₂]
  by_cases hlt : c = '<'
  · subst hlt
    refine .inr ⟨by simp [esc4, escTok], ?_⟩
    intro i hi rest
    rw [show esc4 '<' = str "&lt;" by simp [esc4]] at hi ⊢
    simp [str] at hi
    interval_cases i <;> simp [str, List.isPrefixOf_cons₂]
  by_cases hgt : c = '>'
  · subst hgt
    refine .inr ⟨by simp [esc4, escTok], ?_⟩
    intro i hi rest
    rw [show esc4 '>' = str "&gt;" by simp [esc4]] at hi ⊢
    simp [str] at hi
    interval_cases i <;> simp [str, List.isPrefixOf_cons₂]
  by_cases hqu : c = '\"'
  · subst hqu
    refine .inr ⟨by simp [esc4, escTok], ?_⟩
    intro i hi rest
    rw [show esc4 '\"' = str "&quot;" by simp [esc4]] at hi ⊢
    simp [str] at hi
    interval_cases i <;> simp [str, List.isPrefixOf_cons₂]
  by_cases hap : c = '\''
  · subst hap
    exact .inl ⟨by simp [esc4, str], by simp [escTok, str]⟩
  · refine .inr ⟨by simp [esc4, escTok, hamp, hlt, hgt, hqu, hap], ?_⟩
    intro i hi rest
    rw [show esc4 c = [c] by simp [esc4, hamp, hlt, hgt, hqu]] at hi ⊢
    simp only [List.length_singleton] at hi
    have hi0 : i = 0 := by omega
    subst hi0
    simpa [str] using isPrefixOf_head_ne '\'' ([] : Str) rest c hap

theorem unescPass1 (s : Str) (n : Nat) (hn : (tokMap escTok s).length ≤ n) :
    replaceAllGo (str "&apos;") (str "'") n (tokMap escTok s) = tokMap esc4 s := by
  refine replaceAllGo_tokMap _ _ (by simp [str]) escTok esc4 ?_ s n hn
  intro c
  by_cases hamp : c = '&'
  · subst hamp
    refine .inr ⟨by simp [escTok, esc4], ?_⟩
    intro i hi rest
    rw [show escTok '&' = str "&amp;" by simp [escTok]] at hi ⊢
    simp [str] at hi
    interval_cases i <;> simp [str, List.isPrefixOf_cons₂]
  by_cases hlt : c = '<'
  · subst hlt
    refine .inr ⟨by simp [escTok, esc4], ?_⟩
    intro i hi rest
    rw [show escTok '<' = str "&lt;" by simp [escTok]] at hi ⊢
    simp [str] at hi
    interval_cases i <;> simp [str, List.isPrefixOf_cons₂]
  by_cases hgt : c = '>'
  · subst hgt
    refine .inr ⟨by simp [escTok, esc4], ?_⟩
    intro i hi rest
    rw [show escTok '>' = str "&gt;" by simp [escTok]] at hi ⊢
    simp [str] at hi
    interval_cases i <;> simp [str, List.isPrefixOf_cons₂]
  by_cases hqu : c = '\"'
  · subst hqu
    refine .inr ⟨by simp [escTok, esc4], ?_⟩
    intro i hi rest
    rw [show escTok '\"' = str "&quot;" by simp [escTok]] at hi ⊢
    simp [str] at hi
    interval_cases i <;> simp [str, List.isPrefixOf_cons₂]
  by_cases hap : c = '\''
  · subst hap
    exact .inl ⟨by simp [escTok, str], by simp [esc4, str]⟩
  · refine .inr ⟨by simp [escTok, esc4, hamp, hlt, hgt, hqu, hap], ?_⟩
    intro i hi rest
    rw [show escTok c = [c] by simp [escTok, hamp, hlt, hgt, hqu, hap]] at hi ⊢
    simp only [List.length_singleton] at hi
    have hi0 : i = 0 := by omega
    subst hi0
    simpa [str] using isPrefixOf_head_ne '&' (str "apos;") rest c hamp

theorem unescPass2 (s : Str) (n : Nat) (hn : (tokMap esc4 s).length ≤ n) :
    replaceAllGo (str "&quot;") (str "\"") n (tokMap esc4 s) = tokMap esc3 s := by
  refine replaceAllGo_tokMap _ _ (by simp [str]) esc4 esc3 ?_ s n hn
  intro c
  by_cases hamp : c = '&'
  · subst hamp
    refine .inr ⟨by simp [esc4, esc3], ?_⟩
    intro i hi rest
    rw [show esc4 '&' = str "&amp;" by simp [esc4]] at hi ⊢
    simp [str] at hi
    interval_cases i <;> simp [str, List.isPrefixOf_cons₂]
  by_cases hlt : c = '<'
  · subst hlt
    refine .inr ⟨by simp [esc4, esc3], ?_⟩
    intro i hi rest
    rw [show esc4 '<' = str "&lt;" by simp [esc4]] at hi ⊢
    simp [str] at hi
    interval_cases i <;> simp [str, List.isPrefixOf_cons₂]
  by_cases hgt : c = '>'
  · subst hgt
    refine .inr ⟨by simp [esc4, esc3], ?_⟩
    intro i hi rest
    rw [show esc4 '>' = str "&gt;" by simp [esc4]] at hi ⊢
    simp [str] at hi
    interval_cases i <;> simp [str, List.isPrefixOf_cons₂]
  by_cases hqu : c = '\"'
  · subst hqu
    exact .inl ⟨by simp [esc4, str], by simp [esc3, str]⟩
  · refine .inr ⟨by simp [esc4, esc3, hamp, hlt, hgt, hqu], ?_⟩
    intro i hi rest
    rw [show esc4 c = [c] by simp [esc4, hamp, hlt, hgt, hqu]] at hi ⊢
    simp only [List.length_singleton] at hi
    have hi0 : i = 0 := by omega
    subst hi0
    simpa [str] using isPrefixOf_head_ne '&' (str "quot;") rest c hamp

theorem unescPass3 (s : Str) (n : Nat) (hn : (tokMap esc3 s).length ≤ n) :
    replaceAllGo (str "&gt;") (str ">") n (tokMap esc3 s) = tokMap esc2 s := by
  refine replaceAllGo_tokMap _ _ (by simp [str]) esc3 esc2 ?_ s n hn
  intro c
  by_cases hamp : c = '&'
  · subst hamp
    refine .inr ⟨by simp [esc3, esc2], ?_⟩
    intro i hi rest
    rw [show esc3 '&' = str "&amp;" by simp [esc3]] at hi ⊢
    simp [str] at hi
    interval_cases i <;> simp [str, List.isPrefixOf_cons₂]
  by_cases hlt : c = '<'
  · subst hlt
    refine .inr ⟨by simp [esc3, esc2], ?_⟩
    intro i hi rest
    rw [show esc3 '<' = str "&lt;" by simp [esc3]] at hi ⊢
    simp [str] at hi
    interval_cases i <;> simp [str, List.isPrefixOf_cons₂]
  by_cases hgt : c = '>'
  · subst hgt
    exact .inl ⟨by simp [esc3, str], by simp [esc2, str]⟩
  · refine .inr ⟨by simp [esc3, esc2, hamp, hlt, hgt], ?_⟩
    intro i hi rest
    rw [show esc3 c = [c] by simp [esc3, hamp, hlt, hgt]] at hi ⊢
    simp only [List.length_singleton] at hi
    have hi0 : i = 0 := by omega
    subst hi0
    simpa [str] using isPrefixOf_head_ne '&' (str "gt;") rest c hamp

theorem unescPass4 (s : Str) (n : Nat) (hn : (tokMap esc2 s).length ≤ n) :
    replaceAllGo (str "&lt;") (str "<") n (tokMap esc2 s) = tokMap esc1 s := by
  refine replaceAllGo_tokMap _ _ (by simp [str]) esc2 esc1 ?_ s n hn
  intro c
  by_cases hamp : c = '&'
  · subst hamp
    refine .inr ⟨by simp [esc2, esc1], ?_⟩
    intro i hi rest
    rw [show esc2 '&' = str "&amp;" by simp [esc2]] at hi ⊢
    simp [str] at hi
    interval_cases i <;> simp [str, List.isPrefixOf_cons₂]
  by_cases hlt : c = '<'
  · subst hlt
    exact .inl ⟨by simp [esc2, str], by simp [esc1, str]⟩
  · refine .inr ⟨by simp [esc2, esc1, hamp, hlt], ?_⟩
    intro i hi rest
    rw [show esc2 c = [c] by simp [esc2, hamp, hlt]] at hi ⊢
    simp only [List.length_singleton] at hi
    have hi0 : i = 0 := by omega
    subst hi0
    simpa [str] using isPrefixOf_head_ne '&' (str "lt;") rest c hamp

theorem unescPass5 (s : Str) (n : Nat) (hn : (tokMap esc1 s).length ≤ n) :
    replaceAllGo (str "&amp;") (str "&") n (tokMap esc1 s) = s := by
  have h := replaceAllGo_tokMap (str "&amp;") (str "&") (by simp [str])
    esc1 (fun c => [c]) ?_ s n hn
  · rw [h, tokMap_id]
  · intro c
    by_cases hamp : c = '&'
    · subst hamp
      exact .inl ⟨by simp [esc1, str], by simp [str]⟩
    · refine .inr ⟨by simp [esc1, hamp], ?_⟩
      intro i hi rest
      rw [show esc1 c = [c] by simp [esc1, hamp]] at hi ⊢
      simp only [List.length_singleton] at hi
      have hi0 : i = 0 := by omega
      subst hi0
      simpa [str] using isPrefixOf_head_ne '&' (str "amp;") rest c hamp



theorem xmlEscape_eq_tokMap (s : Str) : xmlEscape s = tokMap escTok s := by
  unfold xmlEscape replaceAll
  rw [escPass1 s _ le_rfl, escPass2 s _ le_rfl, escPass3 s _ le_rfl,
    escPass4 s _ le_rfl, escPass5 s _ le_rfl]

theorem xmlUnescape_tokMap (s : Str) : xmlUnescape (tokMap escTok s) = s := by
  unfold xmlUnescape replaceAll
  rw [unescPass1 s _ le_rfl, unescPass2 s _ le_rfl, unescPass3 s _ le_rfl,
    unescPass4 s _ le_rfl, unescPass5 s _ le_rfl]

theorem xmlUnescape_xmlEscape (s : Str) : xmlUnescape (xmlEscape s) = s := by
  rw [xmlEscape_eq_tokMap]
  exact xmlUnescape_tokMap s

/-! #### C2: the enrichment trigger of `translateText` -/

/-- C2 counterexample: with two initial options of confidence 0.9 and 0.5,
a short text and a positive retry budget, the code performs the enrichment
second pass even though the maximum initial confidence (0.9) is not below
the 0.70 threshold — the claim's "maximum confidence below 0.70" condition
is false while enrichment happens, refuting the claimed equivalence. -/
theorem translateText_enrichment_max_counterexample :
    translateText c2Env (str "ab") 3 = .ok (c2Env.enrichedResult, 2) ∧
    ¬ maxConfidence c2Env.initialResult < LOW_CONFIDENCE_THRESHOLD := by
  constructor
  · simp [translateText, c2Env, str, LOW_CONFIDENCE_THRESHOLD]
    norm_num
  · norm_num [maxConfidence, c2Env, LOW_CONFIDENCE_THRESHOLD, max_def]

/-- C2 (amended): for a request that reaches the backend (no exact-lookup
hit, non-empty text), the enrichment second pass runs if and only if SOME
initial option's confidence is below 0.70 (equivalently, the minimum, not
the maximum), the retry budget is positive and the text is at most 80
characters; otherwise the initial results are returned unchanged, and the
flow performs at most one enrichment round (backend call count 2 versus 1). -/
theorem translateText_enrichment_iff (env : TranslateEnv) (text : Str) (retries : Int)
    (hexact : env.exact = none) (htext : text ≠ []) :
    translateText env text retries =
      (if (env.initialResult.any fun r => r.confidence < LOW_CONFIDENCE_THRESHOLD)
          ∧ 0 < retries ∧ text.length ≤ 80
       then .ok (env.enrichedResult, 2) else .ok (env.initialResult, 1)) := by
  unfold translateText
  rw [if_neg htext, hexact]
  by_cases h : (env.initialResult.any fun r => r.confidence < LOW_CONFIDENCE_THRESHOLD)
      ∧ 0 < retries ∧ text.length ≤ 80
  · rw [if_pos h, if_neg]
    push_neg
    simp only [not_or, not_le, not_lt] at h ⊢
    exact ⟨by simp [h.1], h.2.1, h.2.2⟩
  · rw [if_neg h, if_pos]
    by_contra hc
    push_neg at hc
    exact h ⟨by simpa using hc.1, hc.2.1, hc.2.2⟩

/-- C2 witness: the amended theorem applied to a concrete low-confidence
request, which does get enriched. -/
theorem translateText_enrichment_iff_witness :
    translateText c2LowEnv (str "ab") 3 =
      (if (c2LowEnv.initialResult.any fun r => r.confidence < LOW_CONFIDENCE_THRESHOLD)
          ∧ 0 < (3 : Int) ∧ (str "ab").length ≤ 80
       then .ok (c2LowEnv.enrichedResult, 2) else .ok (c2LowEnv.initialResult, 1)) :=
  translateText_enrichment_iff c2LowEnv (str "ab") 3 rfl (by simp [str])

/-! #### C8: the model-loading retry of `callAITranslation` -/

/-- C8 counterexample: with a backend that reports "model loading" on every
attempt, the retry loop is still running after 10 backend attempts — more
than the only fixed retry constant of the module (`NUMBER_OF_RETRIES = 3`) —
so no fixed bound is ever exhausted and no typed failure is surfaced. -/
theorem callAITranslation_retry_counterexample :
    callAITranslationFuel alwaysLoadingBackend 0 10 = none := rfl

/-- C8 (amended): the model-loading retry is unbounded — while every
backend attempt keeps reporting "model loading" the recursion never
produces a result, for any number of attempts; an error message NOT
containing "model loading" immediately surfaces a typed failure preserving
the backend's message. -/
theorem callAITranslation_retry_unbounded :
    (∀ fuel attempt, callAITranslationFuel alwaysLoadingBackend attempt fuel = none) ∧
    (∀ (msg : Str) (attempt fuel : Nat) (backend : Backend),
      backend attempt = .error msg →
      containsSub (str "model loading") msg = false →
      callAITranslationFuel backend attempt (fuel + 1) =
        some (.error (.translationFailed (str "Translation failed: " ++ msg)))) := by
  constructor
  · intro fuel
    induction fuel with
    | zero => intro attempt; rfl
    | succ n ih =>
      intro attempt
      simpa [callAITranslationFuel, alwaysLoadingBackend] using ih (attempt + 1)
  · intro msg attempt fuel backend hb hnot
    simp [callAITranslationFuel, hb, hnot]

/-- C8 witness: the amended theorem applied to a backend failing with the
non-transient message "boom". -/
theorem callAITranslation_retry_unbounded_witness :
    callAITranslationFuel (fun _ => .error (str "boom")) 0 1 =
      some (.error (.translationFailed (str "Translation failed: " ++ str "boom"))) :=
  callAITranslation_retry_unbounded.2 (str "boom") 0 0 _ rfl (by decide)

/-! #### C7: the log-probability confidence blend -/

/-- Helper: a left fold of `min` over positive reals stays positive. -/
theorem foldl_min_pos (x : ℝ) (xs : List ℝ) (hx : 0 < x) (hxs : ∀ y ∈ xs, 0 < y) :
    0 < xs.foldl min x := by
  induction xs generalizing x with
  | nil => simpa
  | cons y ys ih =>
    exact ih _ (lt_min hx (hxs y (by simp))) (fun z hz => hxs z (by simp [hz]))

/-- Helper: two-decimal rounding preserves non-negativity. -/
theorem round2R_nonneg (x : ℝ) (hx : 0 ≤ x) : 0 ≤ round2R x := by
  unfold round2R
  have h : (0 : ℤ) ≤ round (x * 100) := by
    rw [round_eq]
    exact Int.le_floor.2 (by push_cast; linarith)
  positivity

/-- Helper: on every non-empty log-probability list the code computes the
claim's blend-and-round formula *clamped above at 0.99*. -/
theorem calculateLogprobConfidence_eq_clamped_spec (l : List ℝ) (h : l ≠ []) :
    calculateLogprobConfidence l = min 0.99 (logprobScoreSpec l) := by
  obtain ⟨lp, lps, rfl⟩ : ∃ lp lps, l = lp :: lps := by
    cases l with
    | nil => exact absurd rfl h
    | cons a as => exact ⟨a, as, rfl⟩
  simp only [calculateLogprobConfidence, logprobScoreSpec, clampConfidence]
  have hpos : ∀ y ∈ (lp :: lps).map Real.exp, (0 : ℝ) < y := by
    intro y hy
    obtain ⟨z, _, rfl⟩ := List.mem_map.1 hy
    exact Real.exp_pos z
  have hsum : (0 : ℝ) < ((lp :: lps).map Real.exp).sum :=
    List.sum_pos _ hpos (by simp)
  have hmin : (0 : ℝ) < mathMin ((lp :: lps).map Real.exp) := by
    simp only [List.map, mathMin]
    exact foldl_min_pos _ _ (Real.exp_pos lp) fun y hy =>
      hpos y (by simp only [List.map]; exact List.mem_cons_of_mem _ hy)
  have hlen : (0 : ℝ) < (((lp :: lps).map Real.exp).length : ℝ) := by
    simp only [List.length_map, List.length_cons]
    positivity
  have hblend : (0 : ℝ) ≤ ((lp :: lps).map Real.exp).sum /
      (((lp :: lps).map Real.exp).length : ℝ) * 0.7 +
      mathMin ((lp :: lps).map Real.exp) * 0.3 := by
    have := div_pos hsum hlen
    nlinarith
  rw [max_eq_right (round2R_nonneg _ hblend)]
  congr 1
  unfold round2R
  ring_nf

/-- Helper: the concrete instance named by the claim,
`score [ln 0.9, ln 0.5] = 0.64`. -/
theorem calculateLogprobConfidence_example :
    calculateLogprobConfidence [Real.log 0.9, Real.log 0.5] = 0.64 := by
  simp only [calculateLogprobConfidence, clampConfidence, mathMin, List.map,
    List.foldl, List.sum_cons, List.sum_nil, List.length,
    Real.exp_log (by norm_num : (0:ℝ) < 0.9), Real.exp_log (by norm_num : (0:ℝ) < 0.5)]
  rw [min_eq_right (by norm_num : (0.5:ℝ) ≤ 0.9)]
  norm_num [round2R, round_eq]

/-- C7 counterexample: on the log-probability list `[0]` (a certain token,
probability 1) the claim's formula — blend then round, no clamp — yields
1.00, but the code clamps to 0.99, so the claimed "returns the rounded
blend for every non-empty list" is false at `[0]`. -/
theorem calculateLogprobConfidence_counterexample :
    calculateLogprobConfidence [(0 : ℝ)] = 0.99 ∧
    logprobScoreSpec [(0 : ℝ)] = 1 ∧ (0.99 : ℝ) ≠ 1 := by
  refine ⟨?_, ?_, by norm_num⟩
  · simp only [calculateLogprobConfidence, clampConfidence, mathMin, List.map,
      List.foldl, List.sum_cons, List.sum_nil, List.length, Real.exp_zero]
    norm_num [round2R, round_eq]
  · simp only [logprobScoreSpec, mathMin, List.map, List.foldl, List.sum_cons,
      List.sum_nil, List.length, Real.exp_zero]
    norm_num [round2R, round_eq]

/-- C7 (amended): the score is exactly 0.7 on the empty list; on every
non-empty list it is the claim's formula `0.7 × mean + 0.3 × min` of the
exponentiated log-probabilities, rounded to 2 decimals, but additionally
clamped above at 0.99 (never exactly 1.0); in particular
`score [ln 0.9, ln 0.5] = 0.64`. -/
theorem calculateLogprobConfidence_amended :
    calculateLogprobConfidence [] = 0.7 ∧
    (∀ l : List ℝ, l ≠ [] →
      calculateLogprobConfidence l = min 0.99 (logprobScoreSpec l)) ∧
    calculateLogprobConfidence [Real.log 0.9, Real.log 0.5] = 0.64 :=
  ⟨rfl, calculateLogprobConfidence_eq_clamped_spec, calculateLogprobConfidence_example⟩

/-- C7 witness: the amended theorem applied at the concrete list `[ln 2]`. -/
theorem calculateLogprobConfidence_amended_witness :
    calculateLogprobConfidence [Real.log 2] = min 0.99 (logprobScoreSpec [Real.log 2]) :=
  calculateLogprobConfidence_amended.2.1 [Real.log 2] (by simp)


/-! #### C4: frame property of applyUpdatesToXliff -/

/-- Helper: a trans-unit regex match consumes a prefix of the input. -/
theorem tryUnitAt_append (s : Str) (w i r : Str) (h : tryUnitAt s = some (w, i, r)) :
    w ++ r = s := by
  simp only [tryUnitAt] at h
  split at h
  · split at h
    · exact absurd h (by simp)
    · split at h
      · exact absurd h (by simp)
      · rename_i idv consumed heq
        split at h
        · exact absurd h (by simp)
        · rename_i j hj
          injection h with h1
          injection h1 with hw h2
          injection h2 with hi hr
          subst hw; subst hr
          exact List.take_append_drop _ s
  · exact absurd h (by simp)

theorem findUnitMatch_decomp (s : Str) (m : UnitMatch) (h : findUnitMatch s = some m) :
    s = m.pre ++ m.whole ++ m.rest := by
  induction s generalizing m with
  | nil => simp [findUnitMatch] at h
  | cons c rest ih =>
    simp only [findUnitMatch] at h
    match hx : tryUnitAt (c :: rest) with
    | some (w, i, r) =>
      rw [hx] at h
      injection h with h1
      subst h1
      simpa using (tryUnitAt_append _ _ _ _ hx).symm
    | none =>
      rw [hx] at h
      match hm : findUnitMatch rest with
      | none => rw [hm] at h; simp at h
      | some m' =>
        rw [hm] at h
        simp only [Option.map_some'] at h
        injection h with h1
        subst h1
        simpa using ih m' hm

theorem applyUpdatesGo_frame (updates : List (Str × Str)) :
    ∀ (fuel : Nat) (s : Str),
      s = (scanDecompGo fuel s).1.foldr
            (fun seg acc => seg.1 ++ seg.2.2 ++ acc) (scanDecompGo fuel s).2 ∧
      (applyUpdatesGo updates fuel s).1 =
        (scanDecompGo fuel s).1.foldr
          (fun seg acc =>
            seg.1 ++ (match updates.lookup seg.2.1 with
                      | none => seg.2.2
                      | some t => updateUnitTarget seg.2.2 t) ++ acc)
          (scanDecompGo fuel s).2 := by
  intro fuel
  induction fuel with
  | zero => intro s; exact ⟨rfl, rfl⟩
  | succ n ih =>
    intro s
    simp only [scanDecompGo, applyUpdatesGo]
    match hm : findUnitMatch s with
    | none => exact ⟨rfl, rfl⟩
    | some m =>
      obtain ⟨ih1, ih2⟩ := ih m.rest
      constructor
      · simp only [List.foldr_cons]
        rw [← ih1]
        exact findUnitMatch_decomp s m hm
      · simp only [List.foldr_cons]
        match hl : updates.lookup m.unitId with
        | none => simp [hl, ih2]
        | some t =>
          by_cases hrep : updateUnitTarget m.whole t = m.whole
          · simp [hl, hrep, ih2]
          · simp [hl, hrep, ih2]

/-- Helper: `prefixBy` only inspects the first `p.length` characters. -/
theorem prefixBy_take (eqf : Char → Char → Bool) (p : Str) :
    ∀ (s : Str) (n : Nat), p.length ≤ n →
      prefixBy eqf p (s.take n) = prefixBy eqf p s := by
  induction p with
  | nil => intro s n h; rfl
  | cons a as ih =>
    intro s n h
    cases s with
    | nil => simp [List.take_nil]
    | cons b bs =>
      cases n with
      | zero => simp at h
      | succ k =>
        simp only [List.take_succ_cons, prefixBy]
        rw [ih bs k (by simpa using h)]

theorem prefixBy_append_left (eqf : Char → Char → Bool) (p : Str) :
    ∀ (a b : Str), prefixBy eqf p a = true → prefixBy eqf p (a ++ b) = true := by
  induction p with
  | nil => intro a b _; rfl
  | cons x xs ih =>
    intro a b h
    cases a with
    | nil => simp [prefixBy] at h
    | cons c cs =>
      simp only [prefixBy, Bool.and_eq_true] at h ⊢
      exact ⟨h.1, ih cs b h.2⟩

theorem tryTagAt_decomp (tag s : Str) (o c cl p : Str)
    (h : tryTagAt tag s = some (o, c, cl, p)) :
    s = o ++ c ++ cl ++ p ∧ ciPrefix ('<' :: tag) o = true := by
  simp only [tryTagAt] at h
  split at h
  · rename_i hpre
    split at h
    · exact absurd h (by simp)
    · rename_i g hg
      split at h
      · exact absurd h (by simp)
      · rename_i j hj
        injection h with h1
        injection h1 with ho h2
        injection h2 with hc h3
        injection h3 with hcl hp
        have hao : (s.drop ('<' :: tag).length).drop (g + 1) =
            s.drop (('<' :: tag).length + g + 1) := by
          simp only [List.drop_drop]
          congr 1
        constructor
        · subst ho; subst hc; subst hcl; subst hp
          rw [hao]
          have e2 : (s.drop (('<' :: tag).length + g + 1)).drop
              (j + (str "</" ++ tag ++ str ">").length) =
              ((s.drop (('<' :: tag).length + g + 1)).drop j).drop
                (str "</" ++ tag ++ str ">").length := by
            simp only [List.drop_drop]
            congr 1
            omega
          rw [e2, List.append_assoc, List.append_assoc,
            List.take_append_drop, List.take_append_drop, List.take_append_drop]
        · subst ho
          simp only [ciPrefix] at hpre ⊢
          rw [prefixBy_take ciEq ('<' :: tag) s
            (('<' :: tag).length + g + 1) (by omega)]
          simp only [Bool.and_eq_true] at hpre
          exact hpre.1
  · exact absurd h (by simp)


theorem findTagMatch_decomp (tag s : Str) (m : TagMatch)
    (h : findTagMatch tag s = some m) :
    s = m.pre ++ m.openTag ++ m.content ++ m.closeTag ++ m.post ∧
    ciPrefix ('<' :: tag) m.openTag = true := by
  induction s generalizing m with
  | nil => simp [findTagMatch] at h
  | cons c rest ih =>
    simp only [findTagMatch] at h
    match hx : tryTagAt tag (c :: rest) with
    | some (o, cont, cl, post) =>
      rw [hx] at h
      injection h with h1
      subst h1
      obtain ⟨h1, h2⟩ := tryTagAt_decomp tag (c :: rest) o cont cl post hx
      exact ⟨by simpa using h1, h2⟩
    | none =>
      rw [hx] at h
      match hm : findTagMatch tag rest with
      | none => rw [hm] at h; simp at h
      | some mx =>
        rw [hm] at h
        simp only [Option.map_some'] at h
        injection h with h1
        subst h1
        obtain ⟨h1, h2⟩ := ih mx hm
        exact ⟨by simpa using h1, h2⟩

theorem trySelfCloseAt_decomp (tag s : Str) (w p : Str)
    (h : trySelfCloseAt tag s = some (w, p)) :
    s = w ++ p ∧ ciPrefix ('<' :: tag) w = true := by
  simp only [trySelfCloseAt] at h
  split at h
  · rename_i hpre
    split at h
    · exact absurd h (by simp)
    · rename_i g hg
      split at h
      · injection h with h1
        injection h1 with hw hp
        subst hw; subst hp
        constructor
        · have hao : (s.drop ('<' :: tag).length).drop (g + 1) =
              s.drop (('<' :: tag).length + g + 1) := by
            simp only [List.drop_drop]
            congr 1
          rw [hao, List.take_append_drop]
        · simp only [ciPrefix] at hpre ⊢
          rw [prefixBy_take ciEq ('<' :: tag) s
            (('<' :: tag).length + g + 1) (by omega)]
          simp only [Bool.and_eq_true] at hpre
          exact hpre.1
      · exact absurd h (by simp)
  · exact absurd h (by simp)

theorem findSelfClosing_decomp (tag s : Str) (a w b : Str)
    (h : findSelfClosing tag s = some (a, w, b)) :
    s = a ++ w ++ b ∧ ciPrefix ('<' :: tag) w = true := by
  induction s generalizing a w b with
  | nil => simp [findSelfClosing] at h
  | cons c rest ih =>
    simp only [findSelfClosing] at h
    match hx : trySelfCloseAt tag (c :: rest) with
    | some (w0, p0) =>
      rw [hx] at h
      injection h with h1
      injection h1 with ha h2
      injection h2 with hw hb
      subst ha; subst hw; subst hb
      obtain ⟨h1, h2⟩ := trySelfCloseAt_decomp tag (c :: rest) w0 p0 hx
      exact ⟨by simpa using h1, h2⟩
    | none =>
      rw [hx] at h
      match hm : findSelfClosing tag rest with
      | none => rw [hm] at h; simp at h
      | some (a0, w0, b0) =>
        rw [hm] at h
        simp only [Option.map_some'] at h
        injection h with h1
        injection h1 with ha h2
        injection h2 with hw hb
        subst ha; subst hw; subst hb
        obtain ⟨h1, h2⟩ := ih a0 w0 b0 hm
        exact ⟨by simpa using h1, h2⟩

/-- Helper: every target update is a target-only edit of the unit. -/
theorem updateUnitTarget_span (unit translated : Str) :
    TargetOnlyEdit translated unit (updateUnitTarget unit translated) := by
  unfold TargetOnlyEdit
  match hm : findTagMatch (str "target") unit with
  | some m =>
    obtain ⟨hd, hp⟩ := findTagMatch_decomp _ _ _ hm
    by_cases hc : normalizeForCompare (xmlUnescape m.content) =
        normalizeForCompare translated
    · left
      simp [updateUnitTarget, hm, hc]
    · right; left
      refine ⟨m.pre, m.openTag ++ m.content ++ m.closeTag, m.post, m.content,
        ?_, ?_, ?_⟩
      · simpa [List.append_assoc] using hd
      · rw [show str "<target" = '<' :: str "target" from rfl]
        simp only [ciPrefix] at hp ⊢
        rw [List.append_assoc]
        exact prefixBy_append_left ciEq _ _ _ hp
      · simp [updateUnitTarget, hm, hc, TagMatch.whole]
  | none =>
    match hs : findSelfClosing (str "target") unit with
    | some (a, w, b) =>
      obtain ⟨hd, hp⟩ := findSelfClosing_decomp _ _ _ _ _ hs
      right; right; left
      refine ⟨a, w, b, hd, ?_, ?_⟩
      · rw [show str "<target" = '<' :: str "target" from rfl]
        exact hp
      · simp [updateUnitTarget, hm, hs]
    | none =>
      match hsrc : findTagMatch (str "source") unit with
      | some m =>
        obtain ⟨hd, _⟩ := findTagMatch_decomp _ _ _ hsrc
        right; right; right
        refine ⟨m.pre ++ m.whole, m.post, ?_, ?_⟩
        · simpa [TagMatch.whole, List.append_assoc] using hd
        · simp [updateUnitTarget, hm, hs, hsrc, TagMatch.whole, List.append_assoc]
      | none =>
        left
        simp [updateUnitTarget, hm, hs, hsrc]


/-- C4: frame property of the XLIFF mutation.  Scanning the document with
the trans-unit regex decomposes it as pre-text/block segments plus a
remainder; `applyUpdatesToXliff` reproduces every pre-text segment, every
block whose id has no pending update, and the remainder byte-for-byte,
rewriting only blocks whose id is in the update map through
`updateUnitTarget`; and `updateUnitTarget` changes at most the `<target>`
element region of a block (replacing a `<target…>…</target>` or
`<target…/>` region with the `GetSubstitution` expansion of the generated
element, or inserting a fresh target element), leaving the rest of the
block unchanged. -/
theorem applyUpdatesToXliff_frame (content : Str) (updates : List (Str × Str)) :
    content = (scanDecompGo content.length content).1.foldr
        (fun seg acc => seg.1 ++ seg.2.2 ++ acc)
        (scanDecompGo content.length content).2 ∧
    (applyUpdatesToXliff content updates).1 =
      (scanDecompGo content.length content).1.foldr
        (fun seg acc => seg.1 ++ (match updates.lookup seg.2.1 with
            | none => seg.2.2
            | some t => updateUnitTarget seg.2.2 t) ++ acc)
        (scanDecompGo content.length content).2 ∧
    ∀ unit t, TargetOnlyEdit t unit (updateUnitTarget unit t) := by
  obtain ⟨h1, h2⟩ := applyUpdatesGo_frame updates content.length content
  refine ⟨h1, ?_, fun unit t => updateUnitTarget_span unit t⟩
  simpa [applyUpdatesToXliff] using h2


/-! #### C10: casing/whitespace-only differences are never written -/

theorem rtrim_cons (c : Char) (x : Str) :
    rtrim (c :: x) =
      if rtrim x = [] then (if isJsWs c then [] else [c]) else c :: rtrim x := by
  simp only [rtrim, List.reverse_cons, List.dropWhile_append]
  by_cases h : (x.reverse.dropWhile isJsWs).isEmpty
  · rw [if_pos h]
    have hx : x.reverse.dropWhile isJsWs = [] := by
      cases hy : x.reverse.dropWhile isJsWs with
      | nil => rfl
      | cons a as => rw [hy] at h; simp at h
    rw [if_pos (by rw [hx]; rfl)]
    by_cases hc : isJsWs c
    · simp [List.dropWhile, hc]
    · simp [List.dropWhile, hc]
  · rw [if_neg h]
    have hx : (x.reverse.dropWhile isJsWs).reverse ≠ [] := by
      intro hcon
      apply h
      rw [List.reverse_eq_nil_iff] at hcon
      rw [hcon]
      rfl
    rw [if_neg hx]
    simp [rtrim]

theorem trimWs_eq_dropWhile_rtrim (s : Str) :
    trimWs s = (rtrim s).dropWhile isJsWs := by
  induction s with
  | nil => rfl
  | cons c x ih =>
    by_cases hc : isJsWs c
    · have l1 : trimWs (c :: x) = trimWs x := by
        simp only [trimWs, List.dropWhile_cons, hc, if_pos]
      rw [l1, ih, rtrim_cons]
      by_cases hx : rtrim x = []
      · rw [if_pos hx, if_pos hc, hx]
      · rw [if_neg hx]
        simp [List.dropWhile_cons, hc]
    · have l1 : trimWs (c :: x) = rtrim (c :: x) := by
        simp [trimWs, rtrim, List.dropWhile_cons, hc]
      rw [l1, rtrim_cons]
      by_cases hx : rtrim x = []
      · rw [if_pos hx, if_neg hc]
        simp [List.dropWhile_cons, hc]
      · rw [if_neg hx]
        simp [List.dropWhile_cons, hc]

theorem joinSp_cons_cons (a : Char) (t : Str) (ts : List Str) :
    joinSp ((a :: t) :: ts) = a :: joinSp (t :: ts) := by
  cases ts with
  | nil => rfl
  | cons u us => rfl

theorem splitWsTokens_head_not_ws (s : Str) :
    ∀ t ts, splitWsTokens s = t :: ts → ∃ c t0, t = c :: t0 ∧ isJsWs c = false := by
  induction s using splitWsTokens.induct with
  | case1 => intro t ts h; simp [splitWsTokens] at h
  | case2 c hc => intro t ts h; simp [splitWsTokens, hc] at h
  | case3 c hc =>
    intro t ts h
    rw [splitWsTokens, if_neg hc] at h
    injection h with h1 h2
    exact ⟨c, [], h1.symm, by simpa using hc⟩
  | case4 c d rest hc ih =>
    intro t ts h
    rw [splitWsTokens, if_pos hc] at h
    exact ih t ts h
  | case5 c d rest hc hd ih =>
    intro t ts h
    rw [splitWsTokens, if_neg hc, if_pos hd] at h
    injection h with h1 h2
    exact ⟨c, [], h1.symm, by simpa using hc⟩
  | case6 c d rest hc hd hsplit ih =>
    intro t ts h
    rw [splitWsTokens, if_neg hc, if_neg hd, hsplit] at h
    injection h with h1 h2
    exact ⟨c, [], h1.symm, by simpa using hc⟩
  | case7 c d rest hc hd t0 ts0 hsplit ih =>
    intro t ts h
    rw [splitWsTokens, if_neg hc, if_neg hd, hsplit] at h
    injection h with h1 h2
    exact ⟨c, t0, h1.symm, by simpa using hc⟩

theorem splitWsTokens_ne_nil_of_head (c : Char) (s : Str) (hc : isJsWs c = false) :
    splitWsTokens (c :: s) ≠ [] := by
  cases s with
  | nil =>
    rw [splitWsTokens, if_neg (by simp [hc])]
    simp
  | cons d rest =>
    rw [splitWsTokens, if_neg (by simp [hc])]
    by_cases hd : isJsWs d
    · rw [if_pos hd]; simp
    · rw [if_neg hd]
      cases hsplit : splitWsTokens (d :: rest) with
      | nil => simp
      | cons t ts => simp

theorem rtrim_collapseWs (s : Str) :
    rtrim (collapseWs s) =
      (match splitWsTokens s with
       | [] => ([] : Str)
       | t :: ts =>
         if headWs s then ' ' :: joinSp (t :: ts) else joinSp (t :: ts)) := by
  induction s using splitWsTokens.induct with
  | case1 => rfl
  | case2 c hc =>
    have hcoll : collapseWs [c] = [' '] := by
      rw [collapseWs, if_pos hc]
    have hspl : splitWsTokens [c] = [] := by
      rw [splitWsTokens, if_pos hc]
    rw [hcoll, hspl]
    show rtrim [' '] = ([] : Str)
    decide
  | case3 c hc =>
    have hcoll : collapseWs [c] = [c] := by
      rw [collapseWs, if_neg hc, collapseWs]
    have hspl : splitWsTokens [c] = [[c]] := by
      rw [splitWsTokens, if_neg hc]
    rw [hcoll, hspl]
    have hc2 : isJsWs c = false := by simpa using hc
    simp [rtrim, List.dropWhile, hc2, headWs, joinSp]
  | case4 c d rest hc ih =>
    have hcoll : collapseWs (c :: d :: rest) =
        if isJsWs d then collapseWs (d :: rest) else ' ' :: collapseWs (d :: rest) := by
      rw [collapseWs, if_pos hc]
    have hspl : splitWsTokens (c :: d :: rest) = splitWsTokens (d :: rest) := by
      rw [splitWsTokens, if_pos hc]
    rw [hcoll, hspl]
    by_cases hd : isJsWs d
    · rw [if_pos hd, ih]
      cases hsplit : splitWsTokens (d :: rest) with
      | nil => simp
      | cons t ts => simp [headWs, hd, hc]
    · rw [if_neg hd, rtrim_cons, ih]
      cases hsplit : splitWsTokens (d :: rest) with
      | nil =>
        exact absurd hsplit (splitWsTokens_ne_nil_of_head d rest (by simpa using hd))
      | cons t ts =>
        obtain ⟨a, t0, ht, ha⟩ := splitWsTokens_head_not_ws (d :: rest) t ts hsplit
        subst ht
        simp only [joinSp_cons_cons]
        simp [headWs, hd, hc]
  | case5 c d rest hc hd ih =>
    have hcoll : collapseWs (c :: d :: rest) = c :: collapseWs (d :: rest) := by
      rw [collapseWs, if_neg hc]
    have hspl : splitWsTokens (c :: d :: rest) = [c] :: splitWsTokens (d :: rest) := by
      rw [splitWsTokens, if_neg hc, if_pos hd]
    rw [hcoll, hspl, rtrim_cons, ih]
    cases hsplit : splitWsTokens (d :: rest) with
    | nil => simp [headWs, hc, joinSp]
    | cons t ts =>
      simp [headWs, hd, hc, joinSp]
  | case6 c d rest hc hd hsplit ih =>
    exact absurd hsplit (splitWsTokens_ne_nil_of_head d rest (by simpa using hd))
  | case7 c d rest hc hd t0 ts0 hsplit ih =>
    have hcoll : collapseWs (c :: d :: rest) = c :: collapseWs (d :: rest) := by
      rw [collapseWs, if_neg hc]
    have hspl : splitWsTokens (c :: d :: rest) = (c :: t0) :: ts0 := by
      rw [splitWsTokens, if_neg hc, if_neg hd, hsplit]
    rw [hcoll, hspl, rtrim_cons, ih, hsplit]
    obtain ⟨a, t1, ht, ha⟩ := splitWsTokens_head_not_ws (d :: rest) t0 ts0 hsplit
    subst ht
    simp only [joinSp_cons_cons]
    simp [headWs, hd, hc]

theorem trimWs_collapseWs (s : Str) :
    trimWs (collapseWs s) = joinSp (splitWsTokens s) := by
  rw [trimWs_eq_dropWhile_rtrim, rtrim_collapseWs]
  cases hsplit : splitWsTokens s with
  | nil => rfl
  | cons t ts =>
    obtain ⟨a, t0, ht, ha⟩ := splitWsTokens_head_not_ws s t ts hsplit
    subst ht
    have hsp : isJsWs ' ' = true := by decide
    simp only [joinSp_cons_cons]
    by_cases hh : headWs s
    · simp [hh, List.dropWhile_cons, hsp, ha]
    · simp [hh, List.dropWhile_cons, ha]

theorem lowerStr_joinSp (ts : List Str) :
    lowerStr (joinSp ts) = joinSp (ts.map lowerStr) := by
  induction ts with
  | nil => rfl
  | cons t ts ih =>
    cases ts with
    | nil => rfl
    | cons u us =>
      show lowerStr (t ++ ' ' :: joinSp (u :: us)) =
        joinSp (lowerStr t :: lowerStr u :: us.map lowerStr)
      have e3 : joinSp (lowerStr t :: lowerStr u :: us.map lowerStr) =
          lowerStr t ++ ' ' :: joinSp (lowerStr u :: us.map lowerStr) := rfl
      have e4 : lowerStr u :: us.map lowerStr = (u :: us).map lowerStr := rfl
      rw [e3, e4, ← ih]
      simp only [lowerStr, List.map_append, List.map_cons]
      rw [show lowerChar ' ' = ' ' from by decide]

/-- Canonical form of the already-translated comparison normalizer:
lower-cased tokens joined by single spaces. -/
theorem normalizeForCompare_canon (s : Str) :
    normalizeForCompare s = joinSp ((splitWsTokens s).map lowerStr) := by
  rw [normalizeForCompare, trimWs_collapseWs, lowerStr_joinSp]

/-- C10: a casing/whitespace-only difference is never written. -/
theorem caseWs_unchanged
    (content : Str) (updates : List (Str × Str)) (fuel : Nat)
    (um : UnitMatch) (m : TagMatch) (translated : Str)
    (hu : findUnitMatch content = some um)
    (hl : updates.lookup um.unitId = some translated)
    (hm : findTagMatch (str "target") um.whole = some m)
    (heq : CaseWsEquiv (xmlUnescape m.content) translated) :
    updateUnitTarget um.whole translated = um.whole ∧
    (applyUpdatesGo updates (fuel + 1) content).1 =
      um.pre ++ um.whole ++ (applyUpdatesGo updates fuel um.rest).1 ∧
    um.unitId ∈ (applyUpdatesGo updates (fuel + 1) content).2.2 := by
  have hnorm : normalizeForCompare (xmlUnescape m.content) =
      normalizeForCompare translated := by
    rw [normalizeForCompare_canon, normalizeForCompare_canon]
    exact congrArg joinSp heq
  have hupd : updateUnitTarget um.whole translated = um.whole := by
    simp [updateUnitTarget, hm, hnorm]
  refine ⟨hupd, ?_, ?_⟩
  · simp [applyUpdatesGo, hu, hl, hupd]
  · simp [applyUpdatesGo, hu, hl, hupd]

theorem caseWs_unchanged_witness :
    updateUnitTarget c10Doc (str "hello world") = c10Doc ∧
    (applyUpdatesGo c10Updates 1 c10Doc).1 =
      [] ++ c10Doc ++ (applyUpdatesGo c10Updates 0 []).1 ∧
    str "u1" ∈ (applyUpdatesGo c10Updates 1 c10Doc).2.2 :=
  caseWs_unchanged c10Doc c10Updates 0 c10Um c10Tm (str "hello world")
    (by rfl) (by rfl) (by rfl) (by rfl)


/-! #### C6: idempotence of the text normalizer -/

theorem char_eq_iff_toNat (a b : Char) : a = b ↔ a.toNat = b.toNat := by
  rw [Char.ext_iff]
  constructor
  · exact fun h => congrArg UInt32.toNat h
  · exact fun h => UInt32.toNat.inj h

theorem char_le_iff_toNat (a b : Char) : a ≤ b ↔ a.toNat ≤ b.toNat := by
  rw [Char.le_def, UInt32.le_def]
  rfl

theorem toNat_ofNat_valid (n : Nat) (h : n < 55296) : (Char.ofNat n).toNat = n := by
  have hv : n.isValidChar := Or.inl h
  rw [Char.ofNat, dif_pos hv]
  rw [Char.ofNatAux]
  show (UInt32.ofNat' n _).toNat = n
  rw [UInt32.ofNat']
  simp [UInt32.toNat, UInt32.ofNatCore]

theorem isJsWs_iff (c : Char) : isJsWs c = true ↔
    (c.toNat = 32 ∨ c.toNat = 9 ∨ c.toNat = 10 ∨ c.toNat = 13 ∨
     c.toNat = 11 ∨ c.toNat = 12 ∨ c.toNat = 160 ∨ c.toNat = 5760 ∨
     (8192 ≤ c.toNat ∧ c.toNat ≤ 8202) ∨ c.toNat = 8232 ∨ c.toNat = 8233 ∨
     c.toNat = 8239 ∨ c.toNat = 8287 ∨ c.toNat = 12288 ∨ c.toNat = 65279) := by
  unfold isJsWs
  simp only [Bool.or_eq_true, Bool.and_eq_true, decide_eq_true_eq,
    char_eq_iff_toNat, char_le_iff_toNat,
    show (' ' : Char).toNat = 32 from rfl,
    show ('\t' : Char).toNat = 9 from rfl,
    show ('\n' : Char).toNat = 10 from rfl,
    show ('\r' : Char).toNat = 13 from rfl,
    show (Char.ofNat 11).toNat = 11 from rfl,
    show (Char.ofNat 12).toNat = 12 from rfl,
    show (Char.ofNat 0xa0).toNat = 160 from rfl,
    show (Char.ofNat 0x1680).toNat = 5760 from rfl,
    show (Char.ofNat 0x2000).toNat = 8192 from rfl,
    show (Char.ofNat 0x200a).toNat = 8202 from rfl,
    show (Char.ofNat 0x2028).toNat = 8232 from rfl,
    show (Char.ofNat 0x2029).toNat = 8233 from rfl,
    show (Char.ofNat 0x202f).toNat = 8239 from rfl,
    show (Char.ofNat 0x205f).toNat = 8287 from rfl,
    show (Char.ofNat 0x3000).toNat = 12288 from rfl,
    show (Char.ofNat 0xfeff).toNat = 65279 from rfl]
  tauto

theorem lowerChar_spec (c : Char) :
    lowerChar c = c ∨
    (65 ≤ c.toNat ∧ c.toNat ≤ 90 ∧ (lowerChar c).toNat = c.toNat + 32) := by
  unfold lowerChar
  by_cases h : ('A' ≤ c && c ≤ 'Z') = true
  · right
    rw [if_pos h]
    simp only [Bool.and_eq_true, decide_eq_true_eq] at h
    have h1 := (char_le_iff_toNat 'A' c).mp h.1
    have h2 := (char_le_iff_toNat c 'Z').mp h.2
    rw [show ('A' : Char).toNat = 65 from rfl] at h1
    rw [show ('Z' : Char).toNat = 90 from rfl] at h2
    exact ⟨h1, h2, toNat_ofNat_valid _ (by omega)⟩
  · left
    rw [if_neg h]

theorem lowerChar_eq_low (c ch : Char) (hch : ch.toNat < 97 ∨ 122 < ch.toNat)
    (h : lowerChar c = ch) : c = ch := by
  rcases lowerChar_spec c with h1 | ⟨h1, h2, h3⟩
  · rw [← h1, h]
  · exfalso
    rw [h] at h3
    omega

theorem isJsWs_lowerChar (c : Char) : isJsWs (lowerChar c) = isJsWs c := by
  rcases lowerChar_spec c with h1 | ⟨h1, h2, h3⟩
  · rw [h1]
  · have hc : isJsWs c = false := by
      cases hh : isJsWs c
      · rfl
      · exact absurd ((isJsWs_iff c).mp hh) (by omega)
    have hl2 : isJsWs (lowerChar c) = false := by
      cases hh : isJsWs (lowerChar c)
      · rfl
      · exact absurd ((isJsWs_iff (lowerChar c)).mp hh) (by omega)
    rw [hc, hl2]

theorem lowerChar_idem (c : Char) : lowerChar (lowerChar c) = lowerChar c := by
  rcases lowerChar_spec c with h1 | ⟨h1, h2, h3⟩
  · rw [h1]
    exact h1
  · have hup : ('A' ≤ lowerChar c && lowerChar c ≤ 'Z') = false := by
      cases hh : ('A' ≤ lowerChar c && lowerChar c ≤ 'Z')
      · rfl
      · exfalso
        simp only [Bool.and_eq_true, decide_eq_true_eq, char_le_iff_toNat] at hh
        rw [show ('A' : Char).toNat = 65 from rfl] at hh
        rw [show ('Z' : Char).toNat = 90 from rfl] at hh
        omega
    rw [lowerChar]
    simp [hup]

theorem mem_collapseWs (a : Char) : ∀ (s : Str), a ∈ collapseWs s → a = ' ' ∨ a ∈ s := by
  intro s
  induction s with
  | nil => intro h; simp [collapseWs] at h
  | cons c rest ih =>
    intro h
    cases rest with
    | nil =>
      by_cases hc : isJsWs c
      · have e : collapseWs [c] = [' '] := by
          show (if isJsWs c = true then [' '] else c :: collapseWs []) = [' ']
          rw [if_pos hc]
        rw [e] at h
        simp at h
        exact Or.inl h
      · have e : collapseWs [c] = [c] := by
          show (if isJsWs c = true then [' '] else c :: collapseWs []) = [c]
          rw [if_neg hc]
          rfl
        rw [e] at h
        simp at h
        subst h
        exact Or.inr (List.mem_cons_self _ _)
    | cons d rest2 =>
      by_cases hc : isJsWs c
      · have e : collapseWs (c :: d :: rest2) =
            if isJsWs d then collapseWs (d :: rest2)
            else ' ' :: collapseWs (d :: rest2) := by
          show (if isJsWs c = true then
              (if isJsWs d = true then collapseWs (d :: rest2)
               else ' ' :: collapseWs (d :: rest2))
            else c :: collapseWs (d :: rest2)) = _
          rw [if_pos hc]
        rw [e] at h
        by_cases hd : isJsWs d
        · rw [if_pos hd] at h
          rcases ih h with h3 | h3
          · exact Or.inl h3
          · exact Or.inr (List.mem_cons_of_mem c h3)
        · rw [if_neg hd] at h
          rcases List.mem_cons.mp h with h3 | h3
          · exact Or.inl h3
          · rcases ih h3 with h4 | h4
            · exact Or.inl h4
            · exact Or.inr (List.mem_cons_of_mem c h4)
      · have e : collapseWs (c :: d :: rest2) = c :: collapseWs (d :: rest2) := by
          show (if isJsWs c = true then
              (if isJsWs d = true then collapseWs (d :: rest2)
               else ' ' :: collapseWs (d :: rest2))
            else c :: collapseWs (d :: rest2)) = _
          rw [if_neg hc]
        rw [e] at h
        rcases List.mem_cons.mp h with h3 | h3
        · subst h3
          exact Or.inr (List.mem_cons_self _ _)
        · rcases ih h3 with h4 | h4
          · exact Or.inl h4
          · exact Or.inr (List.mem_cons_of_mem c h4)

theorem mem_trimWs (a : Char) (s : Str) (h : a ∈ trimWs s) : a ∈ s := by
  unfold trimWs at h
  rw [List.mem_reverse] at h
  have h2 := (List.dropWhile_sublist _).mem h
  rw [List.mem_reverse] at h2
  exact (List.dropWhile_sublist _).mem h2

theorem not_mem_normalizeForCompare (ch : Char)
    (hch : ch.toNat < 97 ∨ 122 < ch.toNat) (hsp : ch ≠ ' ')
    (s : Str) (h : ch ∉ s) : ch ∉ normalizeForCompare s := by
  intro hmem
  unfold normalizeForCompare lowerStr at hmem
  rcases List.mem_map.mp hmem with ⟨d, hd, hds⟩
  have hdc : d = ch := lowerChar_eq_low d ch hch hds
  subst hdc
  have hd2 := mem_trimWs d _ hd
  rcases mem_collapseWs d _ hd2 with h1 | h1
  · exact hsp h1
  · exact h h1

theorem replaceAllGo_not_mem (a : Char) (p r : Str) :
    ∀ (n : Nat) (s : Str), a ∉ s → replaceAllGo (a :: p) r n s = s := by
  intro n
  induction n with
  | zero => intro s h; cases s <;> rfl
  | succ m ih =>
    intro s h
    cases s with
    | nil => rfl
    | cons c rest =>
      rw [replaceAllGo]
      have hca : c ≠ a := by
        intro he
        exact h (by rw [he]; exact List.mem_cons_self _ _)
      have hp : (a :: p).isPrefixOf (c :: rest) = false :=
        isPrefixOf_head_ne a p rest c hca
      rw [if_neg (by simp [hp])]
      rw [ih rest (fun hm => h (List.mem_cons_of_mem c hm))]

theorem cdataGo_id : ∀ (fuel : Nat) (s : Str), '<' ∉ s → cdataGo fuel s = s := by
  intro fuel
  induction fuel with
  | zero => intro s h; rfl
  | succ m ih =>
    intro s h
    cases s with
    | nil => rfl
    | cons c rest =>
      rw [cdataGo]
      have hca : c ≠ '<' := by
        intro he
        exact h (by rw [← he]; exact List.mem_cons_self _ _)
      have hp : (str "<![CDATA[").isPrefixOf (c :: rest) = false := by
        rw [show str "<![CDATA[" = '<' :: str "![CDATA[" from rfl]
        exact isPrefixOf_head_ne '<' _ rest c hca
      rw [if_neg (by simp [hp])]
      rw [ih rest (fun hm => h (List.mem_cons_of_mem c hm))]

theorem hexRefsGo_id : ∀ (fuel : Nat) (s : Str), '&' ∉ s → hexRefsGo fuel s = s := by
  intro fuel
  induction fuel with
  | zero => intro s h; rfl
  | succ m ih =>
    intro s h
    cases s with
    | nil => rfl
    | cons c rest =>
      rw [hexRefsGo]
      have hca : c ≠ '&' := by
        intro he
        exact h (by rw [← he]; exact List.mem_cons_self _ _)
      have hp : (str "&#x").isPrefixOf (c :: rest) = false := by
        rw [show str "&#x" = '&' :: str "#x" from rfl]
        exact isPrefixOf_head_ne '&' _ rest c hca
      rw [if_neg (by simp [hp])]
      rw [ih rest (fun hm => h (List.mem_cons_of_mem c hm))]

theorem decRefsGo_id : ∀ (fuel : Nat) (s : Str), '&' ∉ s → decRefsGo fuel s = s := by
  intro fuel
  induction fuel with
  | zero => intro s h; rfl
  | succ m ih =>
    intro s h
    cases s with
    | nil => rfl
    | cons c rest =>
      rw [decRefsGo]
      have hca : c ≠ '&' := by
        intro he
        exact h (by rw [← he]; exact List.mem_cons_self _ _)
      have hp : (str "&#").isPrefixOf (c :: rest) = false := by
        rw [show str "&#" = '&' :: str "#" from rfl]
        exact isPrefixOf_head_ne '&' _ rest c hca
      rw [if_neg (by simp [hp])]
      rw [ih rest (fun hm => h (List.mem_cons_of_mem c hm))]

theorem tagStripGo_id : ∀ (fuel : Nat) (s : Str), '<' ∉ s → tagStripGo fuel s = s := by
  intro fuel
  induction fuel with
  | zero => intro s h; rfl
  | succ m ih =>
    intro s h
    cases s with
    | nil => rfl
    | cons c rest =>
      rw [tagStripGo]
      have hca : c ≠ '<' := by
        intro he
        exact h (by rw [← he]; exact List.mem_cons_self _ _)
      rw [if_neg (by simp [hca])]
      rw [ih rest (fun hm => h (List.mem_cons_of_mem c hm))]

theorem stripHotkeys_id : ∀ (s : Str), '&' ∉ s → stripHotkeys s = s := by
  intro s
  induction s with
  | nil => intro h; rfl
  | cons c rest ih =>
    intro h
    have hca : c ≠ '&' := by
      intro he
      exact h (by rw [← he]; exact List.mem_cons_self _ _)
    have e : stripHotkeys (c :: rest) = c :: stripHotkeys rest := by
      cases rest with
      | nil =>
        show (if c = '&' then [c] else c :: stripHotkeys []) = c :: stripHotkeys []
        rw [if_neg hca]
      | cons d rest2 =>
        show (if c = '&' then
            (if isWordChar d = true then stripHotkeys (d :: rest2)
             else c :: stripHotkeys (d :: rest2))
          else c :: stripHotkeys (d :: rest2)) = c :: stripHotkeys (d :: rest2)
        rw [if_neg hca]
    rw [e, ih (fun hm => h (List.mem_cons_of_mem c hm))]

theorem decodeXmlEntities_id (s : Str) (ha : '&' ∉ s) (hl : '<' ∉ s) :
    decodeXmlEntities s = s := by
  unfold decodeXmlEntities cdataUnwrap hexRefs decRefs replaceAll
  rw [cdataGo_id _ _ hl, hexRefsGo_id _ _ ha, decRefsGo_id _ _ ha]
  rw [show str "&nbsp;" = '&' :: str "nbsp;" from rfl, replaceAllGo_not_mem '&' _ _ _ _ ha]
  rw [show str "&lt;" = '&' :: str "lt;" from rfl, replaceAllGo_not_mem '&' _ _ _ _ ha]
  rw [show str "&gt;" = '&' :: str "gt;" from rfl, replaceAllGo_not_mem '&' _ _ _ _ ha]
  rw [show str "&quot;" = '&' :: str "quot;" from rfl, replaceAllGo_not_mem '&' _ _ _ _ ha]
  rw [show str "&apos;" = '&' :: str "apos;" from rfl, replaceAllGo_not_mem '&' _ _ _ _ ha]
  rw [show str "&amp;" = '&' :: str "amp;" from rfl, replaceAllGo_not_mem '&' _ _ _ _ ha]

theorem normalizeText_eq_forCompare (s : Str) (ha : '&' ∉ s) (hl : '<' ∉ s) :
    normalizeText s = normalizeForCompare s := by
  unfold normalizeText normalizeForCompare tagStrip
  rw [decodeXmlEntities_id s ha hl, tagStripGo_id _ _ hl, stripHotkeys_id _ ha]

theorem splitWsTokens_token_facts (s : Str) :
    ∀ t ∈ splitWsTokens s, t ≠ [] ∧ ∀ c ∈ t, isJsWs c = false := by
  induction s using splitWsTokens.induct with
  | case1 => intro t ht; simp [splitWsTokens] at ht
  | case2 c hc => intro t ht; simp [splitWsTokens, hc] at ht
  | case3 c hc =>
    intro t ht
    rw [splitWsTokens, if_neg hc] at ht
    simp at ht
    subst ht
    refine ⟨by simp, ?_⟩
    intro x hx
    simp at hx
    subst hx
    simpa using hc
  | case4 c d rest hc ih =>
    intro t ht
    rw [splitWsTokens, if_pos hc] at ht
    exact ih t ht
  | case5 c d rest hc hd ih =>
    intro t ht
    rw [splitWsTokens, if_neg hc, if_pos hd] at ht
    rcases List.mem_cons.mp ht with h1 | h1
    · subst h1
      refine ⟨by simp, ?_⟩
      intro x hx
      simp at hx
      subst hx
      simpa using hc
    · exact ih t h1
  | case6 c d rest hc hd hsplit ih =>
    intro t ht
    rw [splitWsTokens, if_neg hc, if_neg hd, hsplit] at ht
    simp at ht
    subst ht
    refine ⟨by simp, ?_⟩
    intro x hx
    simp at hx
    subst hx
    simpa using hc
  | case7 c d rest hc hd t0 ts0 hsplit ih =>
    intro t ht
    rw [splitWsTokens, if_neg hc, if_neg hd, hsplit] at ht
    rcases List.mem_cons.mp ht with h1 | h1
    · subst h1
      refine ⟨by simp, ?_⟩
      intro x hx
      rcases List.mem_cons.mp hx with h2 | h2
      · subst h2
        simpa using hc
      · exact (ih t0 (by rw [hsplit]; exact List.mem_cons_self _ _)).2 x h2
    · exact ih t (by rw [hsplit]; exact List.mem_cons_of_mem _ h1)

theorem splitWsTokens_skip_ws (c : Char) (s : Str) (hc : isJsWs c = true) :
    splitWsTokens (c :: s) = splitWsTokens s := by
  cases s with
  | nil =>
    show (if isJsWs c = true then [] else [[c]]) = splitWsTokens []
    rw [if_pos hc]
    rfl
  | cons d rest => rw [splitWsTokens, if_pos hc]

theorem splitWsTokens_single (t : Str) (hne : t ≠ [])
    (hws : ∀ c ∈ t, isJsWs c = false) : splitWsTokens t = [t] := by
  induction t with
  | nil => exact absurd rfl hne
  | cons c rest ih =>
    have hc : isJsWs c = false := hws c (List.mem_cons_self _ _)
    cases rest with
    | nil =>
      rw [splitWsTokens, if_neg (by simp [hc])]
    | cons d rest2 =>
      have hd : isJsWs d = false :=
        hws d (List.mem_cons_of_mem _ (List.mem_cons_self _ _))
      rw [splitWsTokens, if_neg (by simp [hc]), if_neg (by simp [hd])]
      rw [ih (by simp) (fun x hx => hws x (List.mem_cons_of_mem _ hx))]

theorem splitWsTokens_append_space (z : Str) :
    ∀ (t : Str), t ≠ [] → (∀ c ∈ t, isJsWs c = false) →
      splitWsTokens (t ++ ' ' :: z) = t :: splitWsTokens z := by
  intro t
  induction t with
  | nil => intro h _; exact absurd rfl h
  | cons c rest ih =>
    intro hne hws
    have hc : isJsWs c = false := hws c (List.mem_cons_self _ _)
    cases rest with
    | nil =>
      show splitWsTokens (c :: ' ' :: z) = [c] :: splitWsTokens z
      rw [splitWsTokens, if_neg (by simp [hc]),
        if_pos (show isJsWs ' ' = true from by decide)]
      rw [splitWsTokens_skip_ws ' ' z (by decide)]
    | cons d rest2 =>
      have hd : isJsWs d = false :=
        hws d (List.mem_cons_of_mem _ (List.mem_cons_self _ _))
      show splitWsTokens (c :: d :: (rest2 ++ ' ' :: z)) =
        (c :: d :: rest2) :: splitWsTokens z
      rw [splitWsTokens, if_neg (by simp [hc]), if_neg (by simp [hd])]
      rw [show d :: (rest2 ++ ' ' :: z) = (d :: rest2) ++ ' ' :: z from rfl]
      rw [ih (by simp) (fun x hx => hws x (List.mem_cons_of_mem _ hx))]

theorem splitWsTokens_joinSp (ts : List Str)
    (h : ∀ t ∈ ts, t ≠ [] ∧ ∀ c ∈ t, isJsWs c = false) :
    splitWsTokens (joinSp ts) = ts := by
  induction ts with
  | nil => rfl
  | cons t ts ih =>
    cases ts with
    | nil =>
      show splitWsTokens t = [t]
      have ht := h t (List.mem_cons_self _ _)
      exact splitWsTokens_single t ht.1 ht.2
    | cons u us =>
      show splitWsTokens (t ++ ' ' :: joinSp (u :: us)) = t :: (u :: us)
      have ht := h t (List.mem_cons_self _ _)
      rw [splitWsTokens_append_space (joinSp (u :: us)) t ht.1 ht.2]
      rw [ih (fun x hx => h x (List.mem_cons_of_mem _ hx))]

theorem lowerStr_idem_list (ts : List Str) :
    (ts.map lowerStr).map lowerStr = ts.map lowerStr := by
  rw [List.map_map]
  refine List.map_congr_left ?_
  intro t _
  show lowerStr (lowerStr t) = lowerStr t
  unfold lowerStr
  rw [List.map_map]
  exact List.map_congr_left (fun c _ => lowerChar_idem c)

theorem mapped_token_facts (s : Str) :
    ∀ t ∈ (splitWsTokens s).map lowerStr, t ≠ [] ∧ ∀ c ∈ t, isJsWs c = false := by
  intro t ht
  rcases List.mem_map.mp ht with ⟨t0, ht0, rfl⟩
  have hf := splitWsTokens_token_facts s t0 ht0
  constructor
  · intro hcon
    exact hf.1 (by simpa [lowerStr] using hcon)
  · intro c hc
    rcases List.mem_map.mp hc with ⟨d, hd, rfl⟩
    rw [isJsWs_lowerChar]
    exact hf.2 d hd

/-- C6 counterexample: a doubly-encoded character reference is decoded one
more level by a second normalization pass. -/
theorem normalizeText_idem_counterexample :
    normalizeText (normalizeText (str "&amp;#60;")) ≠
      normalizeText (str "&amp;#60;") := by
  decide

/-- C6 amended: the normalizer is idempotent on every string free of the
entity/tag trigger characters. -/
theorem normalizeText_idem_amended (s : Str) (ha : '&' ∉ s) (hl : '<' ∉ s) :
    normalizeText (normalizeText s) = normalizeText s := by
  have e1 : normalizeText s = normalizeForCompare s :=
    normalizeText_eq_forCompare s ha hl
  have ha2 : '&' ∉ normalizeForCompare s :=
    not_mem_normalizeForCompare '&' (by decide) (by decide) s ha
  have hl2 : '<' ∉ normalizeForCompare s :=
    not_mem_normalizeForCompare '<' (by decide) (by decide) s hl
  rw [e1, normalizeText_eq_forCompare _ ha2 hl2]
  rw [normalizeForCompare_canon, normalizeForCompare_canon]
  rw [splitWsTokens_joinSp _ (mapped_token_facts s)]
  rw [lowerStr_idem_list]

theorem normalizeText_idem_amended_witness :
    ('&' ∉ str "  Hello   World ") ∧ ('<' ∉ str "  Hello   World ") ∧
    normalizeText (normalizeText (str "  Hello   World ")) =
      normalizeText (str "  Hello   World ") :=
  ⟨by decide, by decide,
    normalizeText_idem_amended (str "  Hello   World ") (by decide) (by decide)⟩


/-! #### C3: idempotence of the mutator -/

theorem prefixBy_within (eqf : Char → Char → Bool) (p a b : Str)
    (h : p.length ≤ a.length) :
    prefixBy eqf p (a ++ b) = prefixBy eqf p a := by
  have h1 := prefixBy_take eqf p (a ++ b) a.length (by omega)
  rw [List.take_left] at h1
  exact h1.symm

theorem findSubIdx_none_all (eqf : Char → Char → Bool) (p : Str) :
    ∀ (s : Str), findSubIdx eqf p s = none →
      ∀ k, prefixBy eqf p (s.drop k) = false := by
  intro s
  induction s with
  | nil =>
    intro h k
    rw [List.drop_nil]
    rw [findSubIdx] at h
    by_cases hp : prefixBy eqf p [] = true
    · rw [if_pos hp] at h
      exact absurd h (by simp)
    · exact Bool.not_eq_true _ ▸ (by simpa using hp)
  | cons c rest ih =>
    intro h k
    rw [findSubIdx] at h
    by_cases hp : prefixBy eqf p (c :: rest) = true
    · rw [if_pos hp] at h
      exact absurd h (by simp)
    · rw [if_neg hp] at h
      have hrest : findSubIdx eqf p rest = none := by
        cases hr : findSubIdx eqf p rest with
        | none => rfl
        | some j => rw [hr] at h; simp at h
      cases k with
      | zero =>
        simpa using hp
      | succ k2 =>
        rw [List.drop_succ_cons]
        exact ih hrest k2

theorem prefixBy_append_split (eqf : Char → Char → Bool) :
    ∀ (p x y : Str), prefixBy eqf p (x ++ y) = true →
      x.length < p.length → prefixBy eqf (p.drop x.length) y = true := by
  intro p
  induction p with
  | nil =>
    intro x y _ hlen
    simp at hlen
  | cons p0 ps ih =>
    intro x y h hlen
    cases x with
    | nil =>
      simpa using h
    | cons c xs =>
      simp only [List.cons_append, prefixBy, Bool.and_eq_true] at h
      simp only [List.length_cons] at hlen ⊢
      rw [List.drop_succ_cons]
      exact ih xs y h.2 (by omega)

theorem no_target_prefix (a z : Str)
    (hpre : findSubIdxCi (str "<target") a = none) :
    ∀ k, k < a.length →
      ciPrefix (str "<target") (a.drop k ++ '<' :: z) = false := by
  intro k hk
  by_cases hfit : (str "<target").length ≤ (a.drop k).length
  · rw [ciPrefix, prefixBy_within ciEq _ _ _ hfit]
    exact findSubIdx_none_all ciEq (str "<target") a hpre k
  · cases hcon : ciPrefix (str "<target") (a.drop k ++ '<' :: z) with
    | false => rfl
    | true =>
      exfalso
      rw [ciPrefix] at hcon
      have hlt : (a.drop k).length < (str "<target").length := by omega
      have h2 := prefixBy_append_split ciEq (str "<target") (a.drop k) ('<' :: z)
        hcon hlt
      have hL : (a.drop k).length = a.length - k := List.length_drop k a
      have hge : 1 ≤ (a.drop k).length := by
        rw [hL]; omega
      have hle : (a.drop k).length ≤ 6 := by
        have : (str "<target").length = 7 := by decide
        omega
      set L := (a.drop k).length with hLdef
      interval_cases L <;>
        simp [str, prefixBy, ciEq, lowerChar] at h2


theorem mem_tokMap (f : Char → Str) (c : Char) :
    ∀ (s : Str), c ∈ tokMap f s → ∃ d ∈ s, c ∈ f d := by
  intro s
  induction s with
  | nil => intro h; simp [tokMap] at h
  | cons d rest ih =>
    intro h
    rw [tokMap] at h
    rcases List.mem_append.mp h with h1 | h1
    · exact ⟨d, List.mem_cons_self _ _, h1⟩
    · rcases ih h1 with ⟨e, he, hce⟩
      exact ⟨e, List.mem_cons_of_mem _ he, hce⟩

theorem not_mem_escTok_lt (d : Char) : '<' ∉ escTok d := by
  unfold escTok
  split
  · decide
  · split
    · decide
    · split
      · decide
      · split
        · decide
        · split
          · decide
          · rename_i h1 h2 h3 h4 h5
            simp
            exact fun he => h2 he.symm

theorem not_mem_escTok_gt (d : Char) : '>' ∉ escTok d := by
  unfold escTok
  split
  · decide
  · split
    · decide
    · split
      · decide
      · split
        · decide
        · split
          · decide
          · rename_i h1 h2 h3 h4 h5
            simp
            exact fun he => h3 he.symm

theorem xmlEscape_no_lt (t : Str) (c : Char) (hc : c ∈ xmlEscape t) : c ≠ '<' := by
  rw [xmlEscape_eq_tokMap] at hc
  rcases mem_tokMap escTok c t hc with ⟨d, _, hcd⟩
  exact fun he => not_mem_escTok_lt d (he ▸ hcd)

theorem xmlEscape_no_gt (t : Str) (c : Char) (hc : c ∈ xmlEscape t) : c ≠ '>' := by
  rw [xmlEscape_eq_tokMap] at hc
  rcases mem_tokMap escTok c t hc with ⟨d, _, hcd⟩
  exact fun he => not_mem_escTok_gt d (he ▸ hcd)

theorem ciEq_lt_false (c : Char) (h : c ≠ '<') : ciEq '<' c = false := by
  unfold ciEq
  rw [show lowerChar '<' = '<' from by decide]
  exact beq_eq_false_iff_ne.2
    (fun he => h (lowerChar_eq_low c '<' (by decide) he.symm))

theorem findSubIdx_append_shift (eqf : Char → Char → Bool) (p0 : Char) (ps : Str) :
    ∀ (a z : Str), (∀ c ∈ a, eqf p0 c = false) →
      findSubIdx eqf (p0 :: ps) (a ++ z) =
        (findSubIdx eqf (p0 :: ps) z).map (· + a.length) := by
  intro a
  induction a with
  | nil =>
    intro z _
    cases hz : findSubIdx eqf (p0 :: ps) z <;> simp [hz]
  | cons c a2 ih =>
    intro z h
    rw [List.cons_append, findSubIdx]
    have hp : prefixBy eqf (p0 :: ps) (c :: (a2 ++ z)) = false := by
      simp [prefixBy, h c (List.mem_cons_self _ _)]
    rw [if_neg (by simp [hp])]
    rw [ih z (fun x hx => h x (List.mem_cons_of_mem _ hx))]
    cases hz : findSubIdx eqf (p0 :: ps) z with
    | none => rfl
    | some j =>
      simp
      omega

theorem wordBoundaryAfter_append (y x : Str) (hy : y ≠ []) :
    wordBoundaryAfter (y ++ x) = wordBoundaryAfter y := by
  cases y with
  | nil => exact absurd rfl hy
  | cons c ys => rfl

theorem tryTagAt_assembled (tag o body post : Str) (g : Nat)
    (hpre : ciPrefix ('<' :: tag) o = true)
    (hlen : ('<' :: tag).length < o.length)
    (hbw : wordBoundaryAfter (o.drop ('<' :: tag).length) = true)
    (hgt : (o.drop ('<' :: tag).length).findIdx? (fun d => d == '>') = some g)
    (hg : ('<' :: tag).length + g + 1 = o.length)
    (hfind : findSubIdxCi (str "</" ++ tag ++ str ">")
        (body ++ ((str "</" ++ tag ++ str ">") ++ post)) = some body.length) :
    tryTagAt tag (o ++ (body ++ ((str "</" ++ tag ++ str ">") ++ post))) =
      some (o, body, str "</" ++ tag ++ str ">", post) := by
  have hdropne : o.drop ('<' :: tag).length ≠ [] := by
    intro hcon
    have h2 := congrArg List.length hcon
    rw [List.length_drop] at h2
    simp only [List.length_cons, List.length_nil] at h2 hlen
    omega
  have hdrop : (o ++ (body ++ ((str "</" ++ tag ++ str ">") ++ post))).drop
      ('<' :: tag).length =
      o.drop ('<' :: tag).length ++ (body ++ ((str "</" ++ tag ++ str ">") ++ post)) :=
    List.drop_append_of_le_length (by omega)
  have hcond : (ciPrefix ('<' :: tag)
        (o ++ (body ++ ((str "</" ++ tag ++ str ">") ++ post))) &&
      wordBoundaryAfter ((o ++ (body ++ ((str "</" ++ tag ++ str ">") ++ post))).drop
        ('<' :: tag).length)) = true := by
    rw [Bool.and_eq_true]
    constructor
    · rw [ciPrefix, prefixBy_within ciEq ('<' :: tag) o
        (body ++ ((str "</" ++ tag ++ str ">") ++ post)) (by omega)]
      exact hpre
    · rw [hdrop, wordBoundaryAfter_append _ _ hdropne]
      exact hbw
  have e2 : (o.drop ('<' :: tag).length ++
      (body ++ ((str "</" ++ tag ++ str ">") ++ post))).drop (g + 1) =
      body ++ ((str "</" ++ tag ++ str ">") ++ post) := by
    rw [show g + 1 = (o.drop ('<' :: tag).length).length from by
      rw [List.length_drop]
      simp only [List.length_cons] at hg hlen ⊢
      omega]
    exact List.drop_left _ _
  have etake : (o ++ (body ++ ((str "</" ++ tag ++ str ">") ++ post))).take
      (('<' :: tag).length + g + 1) = o := by
    rw [hg]
    exact List.take_left _ _
  have ebody : (body ++ ((str "</" ++ tag ++ str ">") ++ post)).take body.length =
      body := List.take_left _ _
  have edrop : (body ++ ((str "</" ++ tag ++ str ">") ++ post)).drop body.length =
      (str "</" ++ tag ++ str ">") ++ post := List.drop_left _ _
  have eclose : ((str "</" ++ tag ++ str ">") ++ post).take
      (str "</" ++ tag ++ str ">").length = str "</" ++ tag ++ str ">" :=
    List.take_left _ _
  have epost : (body ++ ((str "</" ++ tag ++ str ">") ++ post)).drop
      (body.length + (str "</" ++ tag ++ str ">").length) = post := by
    rw [show body ++ ((str "</" ++ tag ++ str ">") ++ post) =
        (body ++ (str "</" ++ tag ++ str ">")) ++ post from
      (List.append_assoc _ _ _).symm]
    rw [show body.length + (str "</" ++ tag ++ str ">").length =
        (body ++ (str "</" ++ tag ++ str ">")).length from
      (List.length_append _ _).symm]
    exact List.drop_left _ _
  simp only [tryTagAt]
  rw [if_pos (by simpa using hcond)]
  rw [hdrop]
  simp only [List.findIdx?_append, hgt, Option.or]
  simp only [e2, hfind]
  rw [etake, ebody, edrop, eclose, epost]

theorem findTagMatch_skip (tag : Str) :
    ∀ (a z : Str), (∀ k, k < a.length → tryTagAt tag (a.drop k ++ z) = none) →
      findTagMatch tag (a ++ z) =
        (findTagMatch tag z).map (fun m => { m with pre := a ++ m.pre }) := by
  intro a
  induction a with
  | nil =>
    intro z _
    cases hz : findTagMatch tag z with
    | none => simp [hz]
    | some m => simp [hz]
  | cons c a2 ih =>
    intro z h
    have h0 : tryTagAt tag (c :: (a2 ++ z)) = none := by
      have h1 := h 0 (by simp)
      simpa using h1
    rw [List.cons_append]
    simp only [findTagMatch, h0]
    rw [ih z (fun k hk => by
      have h2 := h (k + 1) (by simp only [List.length_cons]; omega)
      simpa using h2)]
    cases hz : findTagMatch tag z with
    | none => rfl
    | some m => rfl

theorem tryTagAt_none_target (a z : Str)
    (hp : findSubIdxCi (str "<target") a = none)
    (k : Nat) (hk : k < a.length) :
    tryTagAt (str "target") (a.drop k ++ '<' :: z) = none := by
  have hfail := no_target_prefix a z hp k hk
  simp only [tryTagAt]
  rw [if_neg]
  intro hcon
  rw [Bool.and_eq_true] at hcon
  have h1 := hcon.1
  rw [show ('<' :: str "target") = str "<target" from rfl] at h1
  exact absurd (hfail ▸ h1) Bool.false_ne_true

theorem findSubIdxCi_escaped_close (t post : Str) :
    findSubIdxCi (str "</target>")
      (xmlEscape t ++ (str "</target>" ++ post)) = some (xmlEscape t).length := by
  have hshift := findSubIdx_append_shift ciEq '<' (str "/target>") (xmlEscape t)
    (str "</target>" ++ post)
    (fun c hc => ciEq_lt_false c (xmlEscape_no_lt t c hc))
  have hpp : prefixBy ciEq ('<' :: str "/target>")
      ('<' :: (str "/target>" ++ post)) = true := by
    rw [show ('<' :: str "/target>") = str "</target>" from rfl,
      show ('<' :: (str "/target>" ++ post)) = str "</target>" ++ post from rfl,
      prefixBy_within ciEq _ _ _ (by decide)]
    decide
  have hbase : findSubIdx ciEq ('<' :: str "/target>")
      (str "</target>" ++ post) = some 0 := by
    rw [show str "</target>" ++ post = '<' :: (str "/target>" ++ post) from rfl]
    rw [findSubIdx]
    rw [if_pos (by simpa using hpp)]
  rw [show findSubIdxCi (str "</target>")
      (xmlEscape t ++ (str "</target>" ++ post)) =
      findSubIdx ciEq ('<' :: str "/target>")
        (xmlEscape t ++ (str "</target>" ++ post)) from rfl]
  rw [hshift, hbase]
  simp

theorem findTagMatch_out (t pre post : Str)
    (hp : findSubIdxCi (str "<target") pre = none) :
    findTagMatch (str "target") (pre ++ targetTag t ++ post) =
      some ⟨pre, targetOpenLit, xmlEscape t, str "</target>", post⟩ := by
  have htry : tryTagAt (str "target") (targetTag t ++ post) =
      some (targetOpenLit, xmlEscape t, str "</target>", post) := by
    have hshape : targetTag t ++ post =
        targetOpenLit ++ (xmlEscape t ++
          ((str "</" ++ str "target" ++ str ">") ++ post)) := by
      unfold targetTag
      rw [show str "</target>" = str "</" ++ str "target" ++ str ">" from rfl]
      simp [List.append_assoc]
    rw [hshape]
    have hfind : findSubIdxCi (str "</" ++ str "target" ++ str ">")
        (xmlEscape t ++ ((str "</" ++ str "target" ++ str ">") ++ post)) =
        some (xmlEscape t).length := by
      rw [show str "</" ++ str "target" ++ str ">" = str "</target>" from rfl]
      exact findSubIdxCi_escaped_close t post
    have h2 := tryTagAt_assembled (str "target") targetOpenLit (xmlEscape t)
      post 72 (by decide) (by decide) (by decide) (by decide) (by decide) hfind
    rw [show str "</" ++ str "target" ++ str ">" = str "</target>" from rfl] at h2
    exact h2
  rw [List.append_assoc]
  rw [findTagMatch_skip (str "target") pre (targetTag t ++ post)
    (fun k hk => by
      have h3 := tryTagAt_none_target pre
        (List.tail targetOpenLit ++ xmlEscape t ++ str "</target>" ++ post) hp k hk
      rw [show '<' :: (List.tail targetOpenLit ++ xmlEscape t ++
          str "</target>" ++ post) = targetTag t ++ post from by
        unfold targetTag
        rw [show targetOpenLit = '<' :: List.tail targetOpenLit from rfl]
        simp [List.append_assoc]] at h3
      exact h3)]
  rw [show targetTag t ++ post =
      '<' :: (List.tail targetOpenLit ++ (xmlEscape t ++
        (str "</target>" ++ post))) from by
    unfold targetTag
    rw [show targetOpenLit = '<' :: List.tail targetOpenLit from rfl]
    simp [List.append_assoc]]
  simp only [findTagMatch]
  rw [show '<' :: (List.tail targetOpenLit ++ (xmlEscape t ++
      (str "</target>" ++ post))) = targetTag t ++ post from by
    unfold targetTag
    rw [show targetOpenLit = '<' :: List.tail targetOpenLit from rfl]
    simp [List.append_assoc]]
  rw [htry]
  simp

/-- C3 counterexample, two independent failure modes.  First, a unit with
a stray unclosed `<target` fragment and a self-closing target: the first
application inserts a closed target element after the stray fragment, the
second application then matches from the stray fragment and rewrites the
document again.  Second, a clean unit updated with the text `$&`: the
escaped replacement still contains the `$&` substitution pattern, so the
string replacement splices the matched text into the new element and every
application grows the unit again. -/
theorem applyUpdates_idem_counterexample :
    (applyUpdatesToXliff (applyUpdatesToXliff c3Doc c3Updates).1 c3Updates).1 ≠
      (applyUpdatesToXliff c3Doc c3Updates).1 ∧
    (applyUpdatesToXliff (applyUpdatesToXliff c3Doc c3Updates).1 c3Updates).2.1 ≠
      [] ∧
    updateUnitTarget
        (updateUnitTarget (str "<u><target>Hi</target></u>") (str "$&"))
        (str "$&") ≠
      updateUnitTarget (str "<u><target>Hi</target></u>") (str "$&") := by
  refine ⟨?_, ?_, ?_⟩
  · decide
  · decide
  · decide

theorem mem_escTok_dollar (d : Char) (h : '$' ∈ escTok d) : d = '$' := by
  unfold escTok at h
  split at h
  · exact absurd h (by decide)
  · split at h
    · exact absurd h (by decide)
    · split at h
      · exact absurd h (by decide)
      · split at h
        · exact absurd h (by decide)
        · split at h
          · exact absurd h (by decide)
          · simp at h
            exact h.symm

theorem xmlEscape_no_dollar (t : Str) (ht : '$' ∉ t) : '$' ∉ xmlEscape t := by
  intro hmem
  rw [xmlEscape_eq_tokMap] at hmem
  rcases mem_tokMap escTok '$' t hmem with ⟨d, hdt, hcd⟩
  exact ht ((mem_escTok_dollar d hcd) ▸ hdt)

theorem no_dollar_targetTag (t : Str) (ht : '$' ∉ t) : '$' ∉ targetTag t := by
  intro hmem
  unfold targetTag at hmem
  rcases List.mem_append.mp hmem with h1 | h1
  · rcases List.mem_append.mp h1 with h2 | h2
    · revert h2; decide
    · exact xmlEscape_no_dollar t ht h2
  · revert h1; decide

theorem getSubstGo_nil (matched before after : Str) (caps : List Str)
    (fuel : Nat) : getSubstGo matched before after caps fuel [] = [] := by
  cases fuel <;> rfl

theorem getSubstGo_not_dollar (matched before after : Str) (caps : List Str)
    (fuel : Nat) (c : Char) (rest : Str) (hc : c ≠ '$') :
    getSubstGo matched before after caps (fuel + 1) (c :: rest) =
      c :: getSubstGo matched before after caps fuel rest := by
  cases rest with
  | nil =>
    show (if c = '$' then ['$']
      else c :: getSubstGo matched before after caps fuel []) = _
    rw [if_neg hc]
  | cons d r2 =>
    show (if c = '$' then _
      else c :: getSubstGo matched before after caps fuel (d :: r2)) = _
    rw [if_neg hc]

theorem getSubstGo_no_dollar (matched before after : Str) (caps : List Str) :
    ∀ (fuel : Nat) (s : Str), '$' ∉ s →
      getSubstGo matched before after caps fuel s = s := by
  intro fuel
  induction fuel with
  | zero => intro s h; cases s <;> rfl
  | succ n ih =>
    intro s h
    cases s with
    | nil => exact getSubstGo_nil matched before after caps (n + 1)
    | cons c rest =>
      have hc : c ≠ '$' := by
        intro he
        exact h (by rw [← he]; exact List.mem_cons_self _ _)
      rw [getSubstGo_not_dollar matched before after caps n c rest hc]
      rw [ih rest (fun hm2 => h (List.mem_cons_of_mem c hm2))]

theorem getSubst_no_dollar (matched before after : Str) (caps : List Str)
    (s : Str) (h : '$' ∉ s) : getSubst matched before after caps s = s :=
  getSubstGo_no_dollar matched before after caps s.length s h

/-- C3 amended: the per-unit mutation is idempotent whenever the unit has a
well-formed target element with no other case-insensitive `<target`
occurrence before it and the replacement text contains no `$` (so the
`GetSubstitution` expansion of the string replacement is literal). -/
theorem applyTranslation_idem_amended (u t : Str) (m : TagMatch)
    (hm : findTagMatch (str "target") u = some m)
    (hp : findSubIdxCi (str "<target") m.pre = none)
    (hds : '$' ∉ t) :
    updateUnitTarget (updateUnitTarget u t) t = updateUnitTarget u t := by
  by_cases hc : normalizeForCompare (xmlUnescape m.content) = normalizeForCompare t
  · have e1 : updateUnitTarget u t = u := by
      simp [updateUnitTarget, hm, hc]
    rw [e1]
    exact e1
  · have hnod : '$' ∉ targetTag t := no_dollar_targetTag t hds
    have e1 : updateUnitTarget u t = m.pre ++ targetTag t ++ m.post := by
      simp [updateUnitTarget, hm, hc,
        getSubst_no_dollar m.whole m.pre m.post [m.content] (targetTag t) hnod]
    rw [e1]
    have hfm : findTagMatch (str "target") (m.pre ++ (targetTag t ++ m.post)) =
        some ⟨m.pre, targetOpenLit, xmlEscape t, str "</target>", m.post⟩ := by
      rw [← List.append_assoc]
      exact findTagMatch_out t m.pre m.post hp
    have hcomp : normalizeForCompare (xmlUnescape (xmlEscape t)) =
        normalizeForCompare t := by
      rw [xmlEscape_eq_tokMap, xmlUnescape_tokMap]
    simp [updateUnitTarget, hfm, hcomp]

theorem applyTranslation_idem_amended_witness :
    findTagMatch (str "target") (str "<u><target>Hi</target></u>") =
      some ⟨str "<u>", str "<target>", str "Hi", str "</target>", str "</u>"⟩ ∧
    findSubIdxCi (str "<target") (str "<u>") = none ∧
    '$' ∉ str "Bye" ∧
    updateUnitTarget
        (updateUnitTarget (str "<u><target>Hi</target></u>") (str "Bye"))
        (str "Bye") =
      updateUnitTarget (str "<u><target>Hi</target></u>") (str "Bye") :=
  ⟨by decide, by decide, by decide,
    applyTranslation_idem_amended (str "<u><target>Hi</target></u>") (str "Bye")
      ⟨str "<u>", str "<target>", str "Hi", str "</target>", str "</u>"⟩
      (by decide) (by decide) (by decide)⟩

end ALHiLo
